import Mathlib

/-!
Verification of the header/option synchronization subsystem of the vendored
`unpoly` library (files `unpoly/options.py`, `unpoly/up.py`, `unpoly/adapter.py`,
`unpoly/contrib/django.py`).

The embedding models Python JSON-style values as the inductive type `JVal`,
Python dictionaries as insertion-ordered association lists (`List (String × α)`),
and the fallible parts of the code (keyword-argument construction, attribute
errors) as `Except String` computations.  Machine integers do not occur in the
modelled code; JSON numbers are modelled as integers, which covers every value
the subsystem manipulates in the verified claims (no claim involves non-integer
numbers).
-/

/-- A Python value as manipulated by the unpoly subsystem: the image of JSON
under `json.loads` (`None`, `bool`, `int`, `str`, `list`, `dict`).  Equality is
structural, matching Python `==` on such trees (the Python quirk `True == 1` is
outside the fragment exercised by the code: the subsystem never compares
booleans with numbers). -/
inductive JVal where
  | null
  | bool (b : Bool)
  | num (n : Int)
  | str (s : String)
  | arr (elems : List JVal)
  | obj (entries : List (String × JVal))
deriving Repr

mutual

/-- Structural equality on `JVal`, modelling Python `==` on JSON trees. -/
def JVal.beq : JVal → JVal → Bool
  | .null, .null => true
  | .bool x, .bool y => x == y
  | .num x, .num y => x == y
  | .str x, .str y => x == y
  | .arr xs, .arr ys => JVal.beqList xs ys
  | .obj xs, .obj ys => JVal.beqObj xs ys
  | _, _ => false

def JVal.beqList : List JVal → List JVal → Bool
  | [], [] => true
  | x :: xs, y :: ys => JVal.beq x y && JVal.beqList xs ys
  | _, _ => false

def JVal.beqObj : List (String × JVal) → List (String × JVal) → Bool
  | [], [] => true
  | (k1, v1) :: xs, (k2, v2) :: ys =>
      k1 == k2 && JVal.beq v1 v2 && JVal.beqObj xs ys
  | _, _ => false

end

mutual

def JVal.beq_refl : (a : JVal) → JVal.beq a a = true
  | .null => rfl
  | .bool x => by simp [JVal.beq]
  | .num x => by simp [JVal.beq]
  | .str x => by simp [JVal.beq]
  | .arr xs => by simp only [JVal.beq]; exact JVal.beqList_refl xs
  | .obj xs => by simp only [JVal.beq]; exact JVal.beqObj_refl xs

def JVal.beqList_refl : (xs : List JVal) → JVal.beqList xs xs = true
  | [] => rfl
  | x :: xs => by
      simp only [JVal.beqList, Bool.and_eq_true]
      exact ⟨JVal.beq_refl x, JVal.beqList_refl xs⟩

def JVal.beqObj_refl : (xs : List (String × JVal)) → JVal.beqObj xs xs = true
  | [] => rfl
  | (k, v) :: xs => by
      simp only [JVal.beqObj, Bool.and_eq_true]
      exact ⟨⟨by simp, JVal.beq_refl v⟩, JVal.beqObj_refl xs⟩

end

mutual

def JVal.beq_sound : (a b : JVal) → JVal.beq a b = true → a = b
  | .null, b, h => by cases b <;> simp_all [JVal.beq]
  | .bool x, b, h => by cases b <;> simp_all [JVal.beq]
  | .num x, b, h => by cases b <;> simp_all [JVal.beq]
  | .str x, b, h => by cases b <;> simp_all [JVal.beq]
  | .arr xs, .arr ys, h =>
      congrArg JVal.arr (JVal.beqList_sound xs ys (by simpa [JVal.beq] using h))
  | .arr xs, .null, h => by simp [JVal.beq] at h
  | .arr xs, .bool _, h => by simp [JVal.beq] at h
  | .arr xs, .num _, h => by simp [JVal.beq] at h
  | .arr xs, .str _, h => by simp [JVal.beq] at h
  | .arr xs, .obj _, h => by simp [JVal.beq] at h
  | .obj xs, .obj ys, h =>
      congrArg JVal.obj (JVal.beqObj_sound xs ys (by simpa [JVal.beq] using h))
  | .obj xs, .null, h => by simp [JVal.beq] at h
  | .obj xs, .bool _, h => by simp [JVal.beq] at h
  | .obj xs, .num _, h => by simp [JVal.beq] at h
  | .obj xs, .str _, h => by simp [JVal.beq] at h
  | .obj xs, .arr _, h => by simp [JVal.beq] at h

def JVal.beqList_sound : (xs ys : List JVal) → JVal.beqList xs ys = true → xs = ys
  | [], [], _ => rfl
  | [], _ :: _, h => by simp [JVal.beqList] at h
  | _ :: _, [], h => by simp [JVal.beqList] at h
  | x :: xs, y :: ys, h => by
      rw [JVal.beqList, Bool.and_eq_true] at h
      rw [JVal.beq_sound x y h.1, JVal.beqList_sound xs ys h.2]

def JVal.beqObj_sound :
    (xs ys : List (String × JVal)) → JVal.beqObj xs ys = true → xs = ys
  | [], [], _ => rfl
  | [], _ :: _, h => by simp [JVal.beqObj] at h
  | _ :: _, [], h => by simp [JVal.beqObj] at h
  | (k1, v1) :: xs, (k2, v2) :: ys, h => by
      rw [JVal.beqObj, Bool.and_eq_true, Bool.and_eq_true] at h
      obtain ⟨⟨hk, hv⟩, hrest⟩ := h
      rw [JVal.beq_sound v1 v2 hv, JVal.beqObj_sound xs ys hrest,
        show k1 = k2 by simpa using hk]

end

instance : DecidableEq JVal := fun a b =>
  decidable_of_iff (JVal.beq a b = true)
    ⟨JVal.beq_sound a b, fun h => h ▸ JVal.beq_refl a⟩

/-- Python truthiness (`bool(x)`) of a `JVal`: `None`, `False`, `0`, `""`,
`[]` and `{}` are falsy, everything else is truthy. -/
def JVal.truthy : JVal → Bool
  | .null => false
  | .bool b => b
  | .num n => n != 0
  | .str s => s != ""
  | .arr elems => !elems.isEmpty
  | .obj entries => !entries.isEmpty

/-- Lookup in an insertion-ordered association list modelling a Python dict
(`d[k]` / `d.get(k)`).  First entry with the key wins; a well-formed dict has
no duplicate keys. -/
def lookupD {α : Type} (d : List (String × α)) (k : String) : Option α :=
  match d with
  | [] => none
  | (k', v) :: rest => if k' = k then some v else lookupD rest k

/-- Python `k in d`. -/
def hasKeyD {α : Type} (d : List (String × α)) (k : String) : Bool :=
  (lookupD d k).isSome

/-- Python `d[k] = v`: replace the value in place if the key is present
(keeping its position, as CPython dicts do), otherwise append the new entry. -/
def insertD {α : Type} (d : List (String × α)) (k : String) (v : α) :
    List (String × α) :=
  match d with
  | [] => [(k, v)]
  | (k', v') :: rest =>
      if k' = k then (k, v) :: rest else (k', v') :: insertD rest k v

/-- Python `del d[k]` / `d.pop(k)` on the key side: remove the first entry
with the key (the only one, for a well-formed dict). -/
def removeFirst {α : Type} (d : List (String × α)) (k : String) :
    List (String × α) :=
  match d with
  | [] => []
  | (k', v') :: rest =>
      if k' = k then rest else (k', v') :: removeFirst rest k

/-- The keys of a dict, in insertion order. -/
def keysD {α : Type} (d : List (String × α)) : List String :=
  d.map Prod.fst

/-- Well-formedness of a Python dict: no key occurs twice. -/
def NodupKeys {α : Type} (d : List (String × α)) : Prop :=
  (keysD d).Nodup

instance {α : Type} (d : List (String × α)) : Decidable (NodupKeys d) :=
  inferInstanceAs (Decidable (List.Nodup _))

/-! ### The default structured-data codec

Modelled from the spec: the default codec of `BaseAdapter` is the JSON codec
of the Python standard library (`json.loads` / `json.dumps` with separators
`(",", ":")` and `ensure_ascii=True`), which is not part of the repository
sources.  JSON numbers are modelled as integers: inputs with fractional or
exponent parts are treated as unparseable (no claim involves them).  Lone
surrogate escapes, which CPython tolerates, are likewise treated as
unparseable since they have no counterpart in Lean strings. -/

/-- Lowercase hexadecimal digit, as used by `json.dumps` in escapes. -/
def hexDigitLC (n : Nat) : Char :=
  if n < 10 then Char.ofNat (48 + n) else Char.ofNat (87 + n)

/-- Four-digit lowercase hexadecimal rendering of a code unit. -/
def hex4 (n : Nat) : List Char :=
  [hexDigitLC (n / 4096 % 16), hexDigitLC (n / 256 % 16),
   hexDigitLC (n / 16 % 16), hexDigitLC (n % 16)]

/-- Escape one character the way the CPython JSON encoder does with
`ensure_ascii=True`: printable ASCII other than quote and backslash is kept,
everything else becomes a short escape or a `u`-escape (surrogate pairs for
astral characters). -/
def jsonEscapeChar (c : Char) : List Char :=
  if c = '"' then ['\\', '"']
  else if c = '\\' then ['\\', '\\']
  else if c = '\n' then ['\\', 'n']
  else if c = '\r' then ['\\', 'r']
  else if c = '\t' then ['\\', 't']
  else if c = '\x08' then ['\\', 'b']
  else if c = '\x0c' then ['\\', 'f']
  else if c.toNat < 0x20 ∨ c.toNat ≥ 0x7f then
    if c.toNat < 0x10000 then '\\' :: 'u' :: hex4 c.toNat
    else
      let n := c.toNat - 0x10000
      ('\\' :: 'u' :: hex4 (0xD800 + n / 0x400)) ++
        ('\\' :: 'u' :: hex4 (0xDC00 + n % 0x400))
  else [c]

/-- JSON string literal for `s`, double-quoted and escaped. -/
def jsonQuote (s : String) : String :=
  String.mk ('"' :: (s.data.map jsonEscapeChar).flatten ++ ['"'])

mutual

/-- `json.dumps(value, separators=(",", ":"), ensure_ascii=True)`:
deterministic, compact, ASCII-only rendering. -/
def pyJsonDumps : JVal → String
  | .null => "null"
  | .bool true => "true"
  | .bool false => "false"
  | .num n => toString n
  | .str s => jsonQuote s
  | .arr xs => "[" ++ String.intercalate "," (dumpsList xs) ++ "]"
  | .obj kvs => "\x7b" ++ String.intercalate "," (dumpsObj kvs) ++ "\x7d"

def dumpsList : List JVal → List String
  | [] => []
  | x :: xs => pyJsonDumps x :: dumpsList xs

def dumpsObj : List (String × JVal) → List String
  | [] => []
  | (k, v) :: kvs => (jsonQuote k ++ ":" ++ pyJsonDumps v) :: dumpsObj kvs

end

/-- JSON whitespace characters accepted between tokens. -/
def isJsonWsChar (c : Char) : Bool :=
  c == ' ' || c == '\t' || c == '\n' || c == '\r'

def skipJsonWs (cs : List Char) : List Char :=
  cs.dropWhile isJsonWsChar

/-- Value of one hexadecimal digit character. -/
def hexCharVal (c : Char) : Option Nat :=
  if '0' ≤ c ∧ c ≤ '9' then some (c.toNat - 48)
  else if 'a' ≤ c ∧ c ≤ 'f' then some (c.toNat - 87)
  else if 'A' ≤ c ∧ c ≤ 'F' then some (c.toNat - 55)
  else none

/-- Body of a JSON string literal (after the opening quote), fuelled; returns
the decoded string and the input following the closing quote. -/
def parseJString : Nat → List Char → List Char → Option (String × List Char)
  | 0, _, _ => none
  | _ + 1, [], _ => none
  | fuel + 1, c :: rest, acc =>
    if c = '"' then some (String.mk acc.reverse, rest)
    else if c = '\\' then
      match rest with
      | [] => none
      | e :: rest2 =>
        if e = '"' then parseJString fuel rest2 ('"' :: acc)
        else if e = '\\' then parseJString fuel rest2 ('\\' :: acc)
        else if e = '/' then parseJString fuel rest2 ('/' :: acc)
        else if e = 'b' then parseJString fuel rest2 ('\x08' :: acc)
        else if e = 'f' then parseJString fuel rest2 ('\x0c' :: acc)
        else if e = 'n' then parseJString fuel rest2 ('\n' :: acc)
        else if e = 'r' then parseJString fuel rest2 ('\r' :: acc)
        else if e = 't' then parseJString fuel rest2 ('\t' :: acc)
        else if e = 'u' then
          match rest2 with
          | h1 :: h2 :: h3 :: h4 :: rest3 =>
            match hexCharVal h1, hexCharVal h2, hexCharVal h3, hexCharVal h4 with
            | some a, some b, some c', some d =>
              let n := a * 4096 + b * 256 + c' * 16 + d
              if 0xD800 ≤ n ∧ n < 0xDC00 then
                match rest3 with
                | '\\' :: 'u' :: g1 :: g2 :: g3 :: g4 :: rest4 =>
                  match hexCharVal g1, hexCharVal g2, hexCharVal g3, hexCharVal g4 with
                  | some a', some b', some c'', some d' =>
                    let m := a' * 4096 + b' * 256 + c'' * 16 + d'
                    if 0xDC00 ≤ m ∧ m < 0xE000 then
                      parseJString fuel rest4
                        (Char.ofNat (0x10000 + (n - 0xD800) * 0x400 + (m - 0xDC00)) :: acc)
                    else none
                  | _, _, _, _ => none
                | _ => none
              else if 0xDC00 ≤ n ∧ n < 0xE000 then none
              else parseJString fuel rest3 (Char.ofNat n :: acc)
            | _, _, _, _ => none
          | _ => none
        else none
    else if c.toNat < 0x20 then none
    else parseJString fuel rest (c :: acc)

/-- Accumulate the value of a digit string. -/
def digitsToNat (ds : List Char) : Nat :=
  ds.foldl (fun acc c => acc * 10 + (c.toNat - 48)) 0

/-- JSON number (integer grammar: optional minus, no leading zero).  A
fractional or exponent continuation is rejected — see the codec note above. -/
def parseJNumber (cs : List Char) : Option (JVal × List Char) :=
  let p : Bool × List Char := match cs with
    | '-' :: r => (true, r)
    | _ => (false, cs)
  let ds := p.2.takeWhile Char.isDigit
  let rest := p.2.dropWhile Char.isDigit
  if ds.isEmpty then none
  else if 1 < ds.length ∧ ds.headD '0' = '0' then none
  else
    let cont : Bool := match rest with
      | c :: _ => c = '.' || c = 'e' || c = 'E'
      | [] => false
    if cont then none
    else
      let v : Int := Int.ofNat (digitsToNat ds)
      some (.num (if p.1 then -v else v), rest)

mutual

/-- One JSON value at the head of the input (no leading whitespace). -/
def parseJValue : Nat → List Char → Option (JVal × List Char)
  | 0, _ => none
  | fuel + 1, cs =>
    match cs with
    | 'n' :: 'u' :: 'l' :: 'l' :: rest => some (.null, rest)
    | 't' :: 'r' :: 'u' :: 'e' :: rest => some (.bool true, rest)
    | 'f' :: 'a' :: 'l' :: 's' :: 'e' :: rest => some (.bool false, rest)
    | '"' :: rest =>
      (match parseJString (rest.length + 1) rest [] with
       | some (s, rest2) => some (.str s, rest2)
       | none => none)
    | '[' :: rest =>
      (match skipJsonWs rest with
       | ']' :: rest2 => some (.arr [], rest2)
       | rest2 => parseJItems fuel rest2 [])
    | '{' :: rest =>
      (match skipJsonWs rest with
       | '}' :: rest2 => some (.obj [], rest2)
       | rest2 => parseJMembers fuel rest2 [])
    | _ => parseJNumber cs

/-- Comma-separated array items up to the closing bracket. -/
def parseJItems : Nat → List Char → List JVal → Option (JVal × List Char)
  | 0, _, _ => none
  | fuel + 1, cs, acc =>
    match parseJValue fuel cs with
    | none => none
    | some (v, rest) =>
      match skipJsonWs rest with
      | ',' :: rest2 => parseJItems fuel (skipJsonWs rest2) (v :: acc)
      | ']' :: rest2 => some (.arr (v :: acc).reverse, rest2)
      | _ => none

/-- Comma-separated object members up to the closing brace.  Duplicate keys
overwrite in place, as CPython dict construction does. -/
def parseJMembers :
    Nat → List Char → List (String × JVal) → Option (JVal × List Char)
  | 0, _, _ => none
  | fuel + 1, cs, acc =>
    match cs with
    | '"' :: rest =>
      (match parseJString (rest.length + 1) rest [] with
       | some (k, rest2) =>
         (match skipJsonWs rest2 with
          | ':' :: rest3 =>
            (match parseJValue fuel (skipJsonWs rest3) with
             | some (v, rest4) =>
               (match skipJsonWs rest4 with
                | ',' :: rest5 => parseJMembers fuel (skipJsonWs rest5) (insertD acc k v)
                | '}' :: rest5 => some (.obj (insertD acc k v), rest5)
                | _ => none)
             | none => none)
          | _ => none)
       | none => none)
    | _ => none

end

/-- `json.loads`: one JSON document with surrounding whitespace, or `none` on
malformed input (the `json.JSONDecodeError` case). -/
def pyJsonLoads (s : String) : Option JVal :=
  match parseJValue (3 * s.data.length + 16) (skipJsonWs s.data) with
  | some (v, rest) => if (skipJsonWs rest).isEmpty then some v else none
  | none => none

/-! ### The Options record (`unpoly/options.py`) -/

/-- A raw option value during `Options.parse`: either still the raw header
string, or already replaced by its deserialization (`PVal.dec`). -/
inductive PVal where
  | raw (s : String)
  | dec (v : JVal)
deriving Repr, DecidableEq

/-- The Options record of `options.py`.  `accept_layer`/`dismiss_layer` use
`Option JVal`: `none` models the `_Sentinel.SENTINEL` initial state and
`some v` an explicitly set payload (including `some JVal.null` for an
explicit `None`). -/
structure Options where
  version : String := ""
  target : String := ""
  mode : String := ""
  context : List (String × JVal) := []
  fail_target : String := ""
  fail_mode : String := ""
  fail_context : List (String × JVal) := []
  validate : String := ""
  server_target : String := ""
  initial_context : List (String × JVal) := []
  title : JVal := .str ""
  expire_cache : String := ""
  accept_layer : Option JVal := none
  dismiss_layer : Option JVal := none
  events : List JVal := []
deriving Repr, DecidableEq

/-- The `context_diff` property: keys only in `initial_context` map to null,
keys only in `context` map to their current value, keys in both with unequal
values map to the current value; equal-value keys are omitted.  The source
iterates over key sets (unordered); here the deletions are listed first and
then the additions/changes in the order of `context`, which fixes one of the
orders the source may produce — only key membership is observable. -/
def Options.context_diff (o : Options) : List (String × JVal) :=
  let old := o.initial_context
  let new := o.context
  (old.filterMap fun p =>
    if hasKeyD new p.1 then none else some (p.1, JVal.null)) ++
  (new.filterMap fun p =>
    if hasKeyD old p.1 then none else some (p.1, p.2)) ++
  (new.filterMap fun p =>
    match lookupD old p.1 with
    | some ov => if ov ≠ p.2 then some (p.1, p.2) else none
    | none => none)

/-- The seven keys whose raw values `Options.parse` deserializes. -/
def decodedKeys : List String :=
  ["events", "context", "context_diff", "fail_context", "dismiss_layer",
   "accept_layer", "title"]

/-- The keys receiving an empty mapping when deserialization yields null. -/
def contextLikeKeys : List String := ["context", "fail_context", "context_diff"]

/-- The `if decoded is None` substitution block of `Options.parse`. -/
def substituteNull (opt : String) (decoded : JVal) : JVal :=
  if decoded = JVal.null then
    if opt ∈ contextLikeKeys then JVal.obj []
    else if opt = "events" then JVal.arr []
    else JVal.null
  else decoded

/-- Decoding of a single raw option: the seven listed keys are replaced by
their deserialization (with the null substitution), other keys keep their raw
string value. -/
def decodeOpt (deser : String → JVal) (k : String) (v : String) : PVal :=
  if k ∈ decodedKeys then .dec (substituteNull k (deser v)) else .raw v

/-- The decoding loop of `Options.parse` over the whole raw option map. -/
def decodeStage (deser : String → JVal) (options : List (String × String)) :
    List (String × PVal) :=
  options.map fun p => (p.1, decodeOpt deser p.1 p.2)

/-- The names accepted by the attrs-generated `Options.__init__` as keyword
arguments (`init=False` fields `server_target`/`initial_context` excluded). -/
def initFieldNames : List String :=
  ["version", "target", "mode", "context", "fail_target", "fail_mode",
   "fail_context", "validate", "title", "expire_cache", "accept_layer",
   "dismiss_layer", "events"]

/-- Binding one keyword argument during `cls(**parsed_options)`.  A key
outside `initFieldNames` raises `TypeError` exactly as the attrs-generated
initializer does.  A decoded value whose shape does not fit the field's
declared type (e.g. a number under `context`) is rejected here as well: the
Python initializer would store it unchecked and the record would only fail on
later use; no verified claim reaches that corner. -/
def Options.setField (o : Options) (k : String) (v : PVal) :
    Except String Options :=
  if k = "version" then
    match v with
    | .raw s => .ok { o with version := s }
    | _ => .error "unmodeled field value shape"
  else if k = "target" then
    match v with
    | .raw s => .ok { o with target := s }
    | _ => .error "unmodeled field value shape"
  else if k = "mode" then
    match v with
    | .raw s => .ok { o with mode := s }
    | _ => .error "unmodeled field value shape"
  else if k = "fail_target" then
    match v with
    | .raw s => .ok { o with fail_target := s }
    | _ => .error "unmodeled field value shape"
  else if k = "fail_mode" then
    match v with
    | .raw s => .ok { o with fail_mode := s }
    | _ => .error "unmodeled field value shape"
  else if k = "validate" then
    match v with
    | .raw s => .ok { o with validate := s }
    | _ => .error "unmodeled field value shape"
  else if k = "expire_cache" then
    match v with
    | .raw s => .ok { o with expire_cache := s }
    | _ => .error "unmodeled field value shape"
  else if k = "context" then
    match v with
    | .dec (JVal.obj kvs) => .ok { o with context := kvs }
    | _ => .error "unmodeled field value shape"
  else if k = "fail_context" then
    match v with
    | .dec (JVal.obj kvs) => .ok { o with fail_context := kvs }
    | _ => .error "unmodeled field value shape"
  else if k = "events" then
    match v with
    | .dec (JVal.arr xs) => .ok { o with events := xs }
    | _ => .error "unmodeled field value shape"
  else if k = "title" then
    match v with
    | .dec t => .ok { o with title := t }
    | _ => .error "unmodeled field value shape"
  else if k = "accept_layer" then
    match v with
    | .dec t => .ok { o with accept_layer := some t }
    | _ => .error "unmodeled field value shape"
  else if k = "dismiss_layer" then
    match v with
    | .dec t => .ok { o with dismiss_layer := some t }
    | _ => .error "unmodeled field value shape"
  else .error ("TypeError: unexpected keyword argument " ++ k)

/-- `cls(**parsed_options)`: bind every remaining option as a keyword
argument, starting from the field defaults. -/
def buildFrom (o : Options) : List (String × PVal) → Except String Options
  | [] => .ok o
  | (k, v) :: rest =>
      match Options.setField o k v with
      | .ok o' => buildFrom o' rest
      | .error e => .error e

/-- The diff-application loop at the end of `Options.parse`: a null value
deletes the key if present, otherwise the value is stored under the key. -/
def applyContextDiff (ctx diff : List (String × JVal)) :
    List (String × JVal) :=
  diff.foldl
    (fun c p =>
      if p.2 = JVal.null ∧ hasKeyD c p.1 then removeFirst c p.1
      else insertD c p.1 p.2)
    ctx

/-- `Options.parse(options, adapter)`: decode the seven listed keys, pop
`context_diff` (default empty dict), construct the record (snapshotting
`initial_context` in `__attrs_post_init__`), then apply the popped diff to
the fresh record's `context`.  The `Except` layer carries the `TypeError` of
unknown keyword arguments and the `AttributeError` of calling `.items()` on a
truthy non-dict diff. -/
def Options.parse (deser : String → JVal) (options : List (String × String)) :
    Except String Options :=
  let parsed := decodeStage deser options
  let diffVal : JVal :=
    match lookupD parsed "context_diff" with
    | some (.dec v) => v
    | some (.raw _) => JVal.obj []  -- unreachable: context_diff is always decoded
    | none => JVal.obj []
  let remaining := removeFirst parsed "context_diff"
  match buildFrom {} remaining with
  | .error e => .error e
  | .ok o0 =>
    let o := { o0 with initial_context := o0.context }
    if diffVal.truthy then
      match diffVal with
      | JVal.obj kvs => .ok { o with context := applyContextDiff o.context kvs }
      | _ => .error "AttributeError: items"
    else .ok o

/-- `Options.serialize(adapter)`: assemble the response option map in the
source's insertion order (events, title, accept_layer, dismiss_layer,
expire_cache, target override, context diff), including only populated keys. -/
def Options.serialize (o : Options) (ser : JVal → String) :
    List (String × String) :=
  (if o.events.isEmpty then [] else [("events", ser (JVal.arr o.events))]) ++
  (if o.title.truthy then [("title", ser o.title)] else []) ++
  (match o.accept_layer with
   | some v => [("accept_layer", ser v)]
   | none => []) ++
  (match o.dismiss_layer with
   | some v => [("dismiss_layer", ser v)]
   | none => []) ++
  (if o.expire_cache = "" then [] else [("expire_cache", o.expire_cache)]) ++
  (if o.server_target ≠ "" ∧ o.server_target ≠ o.target then
    [("target", o.server_target)]
   else []) ++
  (if o.context_diff.isEmpty then []
   else [("context", ser (JVal.obj o.context_diff))])

/-! ### Header, parameter and query-string plumbing (`unpoly/up.py`) -/

/-- `header_to_opt`: strip the five-character reserved header marker
`X-Up-`, lower-case, and turn hyphens into underscores. -/
def header_to_opt (header : String) : String :=
  String.mk ((header.data.drop 5).map fun c =>
    if c = '-' then '_' else c.toLower)

/-- Python `str.capitalize`: first character upper-cased, the rest
lower-cased. -/
def pyCapitalize (l : List Char) : List Char :=
  match l with
  | [] => []
  | c :: rest => c.toUpper :: rest.map Char.toLower

/-- Split a character list on a separator character, Python `str.split(sep)`
semantics (empty input gives one empty part, adjacent separators give empty
parts). -/
def splitOnChar (sep : Char) : List Char → List (List Char)
  | [] => [[]]
  | c :: rest =>
      match splitOnChar sep rest with
      | [] => [[]]  -- unreachable: the result is always nonempty
      | part :: parts =>
          if c = sep then [] :: part :: parts else (c :: part) :: parts

/-- `opt_to_header`: split on underscore, capitalize each part, join with
hyphens under the reserved marker. -/
def opt_to_header (opt : String) : String :=
  "X-Up-" ++ String.intercalate "-"
    ((splitOnChar '_' opt.data).map fun part => String.mk (pyCapitalize part))

/-- `param_to_opt`: strip the four-character reserved parameter marker
`_up_`. -/
def param_to_opt (param : String) : String := String.mk (param.data.drop 4)

/-- `opt_to_param`: prepend the reserved parameter marker. -/
def opt_to_param (opt : String) : String := "_up_" ++ opt

/-- Whether `p` starts the string `s` (Python `s.startswith(p)`). -/
def pyStartsWith (s p : String) : Bool := p.data.isPrefixOf s.data

/-- Whether `sub` occurs anywhere in `s` (Python `sub in s`). -/
def pyContainsSub (s sub : String) : Bool :=
  (List.range (s.data.length + 1)).any fun i => sub.data.isPrefixOf (s.data.drop i)

/-- Whether the character `c` occurs in `s` (Python `c in s`). -/
def pyContainsChar (s : String) (c : Char) : Bool := s.data.contains c

/-- Python `s.split(c, 1)`: the part before the first `c` and the part after
it (`s` itself and `""` when `c` does not occur). -/
def pySplitFirst (s : String) (c : Char) : String × String :=
  (String.mk (s.data.takeWhile fun x => x ≠ c),
   String.mk (((s.data.dropWhile fun x => x ≠ c).drop 1)))

/-- The characters `urllib.parse.quote_plus` never quotes (letters, digits
and `_.-~`). -/
def quoteSafeByte (b : Nat) : Bool :=
  (48 ≤ b && b ≤ 57) || (65 ≤ b && b ≤ 90) || (97 ≤ b && b ≤ 122) ||
    b == 95 || b == 46 || b == 45 || b == 126

/-- UTF-8 bytes of one character. -/
def utf8Bytes (c : Char) : List Nat :=
  let n := c.toNat
  if n < 0x80 then [n]
  else if n < 0x800 then
    [0xC0 + n / 0x40, 0x80 + n % 0x40]
  else if n < 0x10000 then
    [0xE0 + n / 0x1000, 0x80 + n / 0x40 % 0x40, 0x80 + n % 0x40]
  else
    [0xF0 + n / 0x40000, 0x80 + n / 0x1000 % 0x40, 0x80 + n / 0x40 % 0x40,
     0x80 + n % 0x40]

/-- Uppercase hexadecimal digit, as used by percent-encoding. -/
def hexDigitUC (n : Nat) : Char :=
  if n < 10 then Char.ofNat (48 + n) else Char.ofNat (55 + n)

/-- `urllib.parse.quote_plus`: spaces become `+`, safe bytes stay, every
other UTF-8 byte is percent-encoded with uppercase hex. -/
def quote_plus (s : String) : String :=
  String.mk ((s.data.map fun c =>
    (utf8Bytes c).map fun b =>
      if b = 32 then ['+']
      else if quoteSafeByte b then [Char.ofNat b]
      else ['%', hexDigitUC (b / 16), hexDigitUC (b % 16)]).flatten.flatten)

/-- `urllib.parse.urlencode` over single-valued pairs: quote key and value,
join with `=` and `&`, in insertion order. -/
def urlencode (params : List (String × String)) : String :=
  String.intercalate "&"
    (params.map fun p => quote_plus p.1 ++ "=" ++ quote_plus p.2)

/-- `urllib.parse.urlencode(..., doseq=True)` over multi-valued pairs. -/
def urlencodeSeq (params : List (String × List String)) : String :=
  String.intercalate "&"
    ((params.map fun p =>
      p.2.map fun v => quote_plus p.1 ++ "=" ++ quote_plus v).flatten)

/-- Decode a percent-encoded byte list (after `+` has been mapped to space);
bytes of well-formed UTF-8 yield the decoded characters.  Sequences that are
not valid UTF-8 are replaced by U+FFFD, approximating CPython's
`errors="replace"`; no verified claim reaches a malformed sequence. -/
def utf8Decode : Nat → List Nat → List Char
  | 0, _ => []
  | _ + 1, [] => []
  | fuel + 1, b :: rest =>
    if b < 0x80 then Char.ofNat b :: utf8Decode fuel rest
    else if 0xC2 ≤ b ∧ b < 0xE0 then
      match rest with
      | b2 :: rest2 =>
        if 0x80 ≤ b2 ∧ b2 < 0xC0 then
          Char.ofNat ((b - 0xC0) * 0x40 + (b2 - 0x80)) :: utf8Decode fuel rest2
        else '�' :: utf8Decode fuel rest
      | [] => ['�']
    else if 0xE0 ≤ b ∧ b < 0xF0 then
      match rest with
      | b2 :: b3 :: rest2 =>
        if (0x80 ≤ b2 ∧ b2 < 0xC0) ∧ (0x80 ≤ b3 ∧ b3 < 0xC0) then
          let n := (b - 0xE0) * 0x1000 + (b2 - 0x80) * 0x40 + (b3 - 0x80)
          if 0xD800 ≤ n ∧ n < 0xE000 then '�' :: utf8Decode fuel rest2
          else Char.ofNat n :: utf8Decode fuel rest2
        else '�' :: utf8Decode fuel rest
      | _ => ['�']
    else if 0xF0 ≤ b ∧ b < 0xF5 then
      match rest with
      | b2 :: b3 :: b4 :: rest2 =>
        if (0x80 ≤ b2 ∧ b2 < 0xC0) ∧ (0x80 ≤ b3 ∧ b3 < 0xC0) ∧
            (0x80 ≤ b4 ∧ b4 < 0xC0) then
          let n := (b - 0xF0) * 0x40000 + (b2 - 0x80) * 0x1000 +
            (b3 - 0x80) * 0x40 + (b4 - 0x80)
          if n < 0x110000 then Char.ofNat n :: utf8Decode fuel rest2
          else '�' :: utf8Decode fuel rest2
        else '�' :: utf8Decode fuel rest
      | _ => ['�']
    else '�' :: utf8Decode fuel rest

/-- Percent-decode to bytes, mapping `+` to space first
(`urllib.parse.unquote_plus` up to the byte level). -/
def percentDecodeBytes : List Char → List Nat
  | [] => []
  | '+' :: rest => 32 :: percentDecodeBytes rest
  | '%' :: h1 :: h2 :: rest =>
      (match hexCharVal h1, hexCharVal h2 with
       | some a, some b => (a * 16 + b) :: percentDecodeBytes rest
       | _, _ => (utf8Bytes '%' ++ utf8Bytes h1 ++ utf8Bytes h2) ++
           percentDecodeBytes rest)
  | c :: rest => utf8Bytes c ++ percentDecodeBytes rest

/-- `urllib.parse.unquote_plus`. -/
def unquote_plus (s : String) : String :=
  let bytes := percentDecodeBytes s.data
  String.mk (utf8Decode (bytes.length + 1) bytes)

/-- `urllib.parse.parse_qs`: split the query string on `&`, split each field
on the first `=`, drop fields without `=` or with an empty value
(`keep_blank_values=False`), percent-decode names and values, and group
values by name in first-occurrence order. -/
def parse_qs (qs : String) : List (String × List String) :=
  let pairs : List (String × String) :=
    (splitOnChar '&' qs.data).filterMap fun part =>
      let name := part.takeWhile fun c => c ≠ '='
      if name.length = part.length then none  -- no '=' in the field
      else
        let value := (part.dropWhile fun c => c ≠ '=').drop 1
        if value.isEmpty then none
        else some (unquote_plus (String.mk name), unquote_plus (String.mk value))
  pairs.foldl
    (fun acc p =>
      match lookupD acc p.1 with
      | some vs => insertD acc p.1 (vs ++ [p.2])
      | none => acc ++ [(p.1, [p.2])])
    []

/-! ### The coordinator (`unpoly/up.py`) and the reference adapter
(`unpoly/adapter.py`) -/

/-- The pluggable serialize/deserialize pair of the adapter.  The Python
`deserialize_data` returns `None` both for the JSON document `null` and for
malformed input, so its model returns `JVal.null` for both. -/
structure Codec where
  deserialize_data : String → JVal
  serialize_data : JVal → String

/-- `BaseAdapter.deserialize_data`: read the payload as JSON, returning
`None` on a decode error (and `None` for the well-formed document `null`,
which Python cannot distinguish from the error case). -/
def BaseAdapter.deserialize_data (data : String) : JVal :=
  (pyJsonLoads data).getD JVal.null

/-- `BaseAdapter.serialize_data`: compact JSON. -/
def BaseAdapter.serialize_data (data : JVal) : String := pyJsonDumps data

/-- The default `BaseAdapter` codec. -/
def defaultCodec : Codec where
  deserialize_data := BaseAdapter.deserialize_data
  serialize_data := BaseAdapter.serialize_data

/-- The request-side state of `SimpleAdapter`: method, location, headers,
query parameters, and the response's redirect target (`None` when the
response is not a redirection). -/
structure SimpleAdapter where
  method : String := "GET"
  location : String := "/"
  headers : List (String × String) := []
  params : List (String × String) := []
  redirect_uri : Option String := none
deriving Repr, DecidableEq

/-- The write-backs `finalize_response` performs through the adapter:
the `set_cookie` flag, and the redirect URI or header map if written. -/
structure FinalizeResult where
  cookie : Bool
  response_redirect_uri : Option String := none
  response_headers : Option (List (String × String)) := none
deriving Repr, DecidableEq

/-- `Unpoly.options`: collect every `X-Up-*` request header under its option
name, then overlay every `_up_*` request parameter (parameters win on
collision), and parse the merged raw map. -/
def Unpoly.buildRawOptions (headers params : List (String × String)) :
    List (String × String) :=
  let fromHeaders := (headers.filter fun p => pyStartsWith p.1 "X-Up-").map
    fun p => (header_to_opt p.1, p.2)
  let fromParams := (params.filter fun p => pyStartsWith p.1 "_up_").map
    fun p => (param_to_opt p.1, p.2)
  fromParams.foldl (fun d p => insertD d p.1 p.2) fromHeaders

/-- `Unpoly.__bool__`: the request is protocol-aware iff the version field is
non-empty. -/
def Unpoly.isUp (o : Options) : Bool := o.version != ""

/-- `Unpoly.needs_cookie` over the memoized options record `o`: a non-GET
request that is not protocol-aware. -/
def Unpoly.needs_cookie (a : SimpleAdapter) (o : Options) : Bool :=
  a.method != "GET" && !(Unpoly.isUp o)

/-- `Unpoly.emit`: append `dict(type=type, **options)` to the events list.
Python raises `TypeError` when `options` itself carries a `type` key (the
keyword argument would be given twice). -/
def Unpoly.emit (o : Options) (type : String)
    (options : List (String × JVal)) : Except String Options :=
  if hasKeyD options "type" then
    .error "TypeError: multiple values for keyword argument type"
  else
    .ok { o with events := o.events ++ [JVal.obj (("type", JVal.str type) :: options)] }

/-- `Layer.emit`: delegate to `Unpoly.emit` with `dict(layer="current",
**options)`.  Python raises `TypeError` when `options` itself carries a
`layer` key, before `Unpoly.emit` runs. -/
def Layer.emit (o : Options) (type : String)
    (options : Option (List (String × JVal))) : Except String Options :=
  let opts := options.getD []  -- `options = options or \x7b\x7d`
  if hasKeyD opts "layer" then
    .error "TypeError: multiple values for keyword argument layer"
  else Unpoly.emit o type (("layer", JVal.str "current") :: opts)

/-- `Layer.accept(value=None)`: set the shared record's `accept_layer`. -/
def Layer.accept (o : Options) (value : JVal := JVal.null) : Options :=
  { o with accept_layer := some value }

/-- `Layer.dismiss(value=None)`: set the shared record's `dismiss_layer`. -/
def Layer.dismiss (o : Options) (value : JVal := JVal.null) : Options :=
  { o with dismiss_layer := some value }

/-- `Cache.expire(pattern="*")`. -/
def Cache.expire (o : Options) (pattern : String := "*") : Options :=
  { o with expire_cache := pattern }

/-- `Cache.keep()`: `expire("false")`, intentionally the literal string. -/
def Cache.keep (o : Options) : Options := Cache.expire o "false"

/-- The `pop`/rename step of the redirect branch: move the `context` entry,
if present, to the end of the map under the `context_diff` key. -/
def renameContextKey (s : List (String × String)) : List (String × String) :=
  match lookupD s "context" with
  | some v => insertD (removeFirst s "context") "context_diff" v
  | none => s

/-- `Unpoly.finalize_response(response)` over the memoized (and possibly
handler-mutated) options record `o`: always report the cookie flag; stop for
non-protocol-aware requests; append the serialized options (context renamed
to context_diff) as `_up_*` query parameters to a redirect target; otherwise
write them as `X-Up-*` headers, cleaning reserved parameters out of the
location and always adding the method. -/
def Unpoly.finalize_response (c : Codec) (a : SimpleAdapter) (o : Options) :
    FinalizeResult :=
  let cookie := Unpoly.needs_cookie a o
  if !(Unpoly.isUp o) then { cookie }
  else
    let serialized := o.serialize c.serialize_data
    match a.redirect_uri with
    | some uri =>
      let serialized := renameContextKey serialized
      let params := serialized.map fun p => (opt_to_param p.1, p.2)
      let sep := if pyContainsChar uri '?' then "&" else "?"
      let uri := if params.isEmpty then uri else uri ++ sep ++ urlencode params
      { cookie, response_redirect_uri := some uri }
    | none =>
      let serialized :=
        if pyContainsChar a.location '?' && pyContainsSub a.location "_up_" then
          let pq := pySplitFirst a.location '?'
          let items := (parse_qs pq.2).filter fun p => !(pyStartsWith p.1 "_up_")
          let loc :=
            if items.isEmpty then pq.1 else pq.1 ++ "?" ++ urlencodeSeq items
          insertD serialized "location" loc
        else serialized
      let serialized := insertD serialized "method" a.method
      { cookie,
        response_headers := some (serialized.map fun p => (opt_to_header p.1, p.2)) }

/-- `DjangoAdapter.set_cookie`'s effect on the response: set the `_up_method`
cookie to the request method when needed, otherwise delete it if the request
carried it. -/
inductive CookieEffect where
  | setTo (value : String)
  | delete
  | keep
deriving Repr, DecidableEq

/-- The decision logic of `DjangoAdapter.set_cookie`. -/
def djangoSetCookie (method : String) (requestHasCookie needs : Bool) :
    CookieEffect :=
  if needs then .setTo method
  else if requestHasCookie then .delete
  else .keep

/-! ### Characterizing record construction from keyword arguments -/

/-- The raw-string option names (fields not in `decodedKeys`). -/
def rawFieldNames : List String :=
  ["version", "target", "mode", "fail_target", "fail_mode", "validate",
   "expire_cache"]

/-- The decoded option names whose field accepts any value shape. -/
def anyDecFieldNames : List String := ["title", "accept_layer", "dismiss_layer"]

/-- The entries `Options.setField` accepts (the complement raises). -/
def acceptableEntry (p : String × PVal) : Bool :=
  match p.2 with
  | .raw _ => rawFieldNames.contains p.1
  | .dec (JVal.obj _) =>
      p.1 == "context" || p.1 == "fail_context" || anyDecFieldNames.contains p.1
  | .dec (JVal.arr _) => p.1 == "events" || anyDecFieldNames.contains p.1
  | .dec _ => anyDecFieldNames.contains p.1

/-- The raw string bound to `k`, when `k` is bound to an undecoded value. -/
def rawValueAt (l : List (String × PVal)) (k : String) : Option String :=
  match lookupD l k with
  | some (.raw s) => some s
  | _ => none

/-- The decoded value bound to `k`, when `k` is bound to a decoded value. -/
def decValueAt (l : List (String × PVal)) (k : String) : Option JVal :=
  match lookupD l k with
  | some (.dec v) => some v
  | _ => none

/-- The decoded mapping bound to `k`, when there is one. -/
def objValueAt (l : List (String × PVal)) (k : String) :
    Option (List (String × JVal)) :=
  match decValueAt l k with
  | some (.obj kvs) => some kvs
  | _ => none

/-- The decoded sequence bound to `k`, when there is one. -/
def arrValueAt (l : List (String × PVal)) (k : String) : Option (List JVal) :=
  match decValueAt l k with
  | some (.arr xs) => some xs
  | _ => none

/-- Closed form of the record produced by binding the keyword arguments `l`
over the starting record `o`. -/
def buildSpecUpdate (l : List (String × PVal)) (o : Options) : Options where
  version := (rawValueAt l "version").getD o.version
  target := (rawValueAt l "target").getD o.target
  mode := (rawValueAt l "mode").getD o.mode
  context := (objValueAt l "context").getD o.context
  fail_target := (rawValueAt l "fail_target").getD o.fail_target
  fail_mode := (rawValueAt l "fail_mode").getD o.fail_mode
  fail_context := (objValueAt l "fail_context").getD o.fail_context
  validate := (rawValueAt l "validate").getD o.validate
  server_target := o.server_target
  initial_context := o.initial_context
  title := (decValueAt l "title").getD o.title
  expire_cache := (rawValueAt l "expire_cache").getD o.expire_cache
  accept_layer := ((decValueAt l "accept_layer").map some).getD o.accept_layer
  dismiss_layer := ((decValueAt l "dismiss_layer").map some).getD o.dismiss_layer
  events := (arrValueAt l "events").getD o.events

/-! ### Lemma development -/

theorem lookupD_eq_none_iff {α : Type} (d : List (String × α)) (k : String) :
    lookupD d k = none ↔ k ∉ keysD d := by
  induction d with
  | nil => simp [lookupD, keysD]
  | cons p rest ih =>
    obtain ⟨k', v⟩ := p
    by_cases h : k' = k
    · subst h
      simp [lookupD, keysD]
    · simp [lookupD, keysD, h, ih, Ne.symm h]

theorem lookupD_append {α : Type} (a b : List (String × α)) (k : String) :
    lookupD (a ++ b) k =
      (match lookupD a k with
       | some v => some v
       | none => lookupD b k) := by
  induction a with
  | nil => simp [lookupD]
  | cons p rest ih =>
    obtain ⟨k', v⟩ := p
    by_cases h : k' = k
    · simp [lookupD, h]
    · simp [lookupD, h, ih]

theorem lookupD_insertD {α : Type} (d : List (String × α)) (k key : String)
    (v : α) :
    lookupD (insertD d k v) key = if k = key then some v else lookupD d key := by
  induction d with
  | nil => simp [insertD, lookupD]
  | cons p rest ih =>
    obtain ⟨k', v'⟩ := p
    by_cases h : k' = k
    · subst h
      by_cases hk : k' = key <;> simp [insertD, lookupD, hk]
    · by_cases hk : k' = key
      · subst hk
        have : ¬ k = k' := fun hc => h hc.symm
        simp [insertD, lookupD, h, this]
      · simp [insertD, lookupD, h, hk, ih]

theorem lookupD_removeFirst_ne {α : Type} (d : List (String × α))
    (k key : String) (h : key ≠ k) :
    lookupD (removeFirst d k) key = lookupD d key := by
  induction d with
  | nil => simp [removeFirst]
  | cons p rest ih =>
    obtain ⟨k', v'⟩ := p
    by_cases hk : k' = k
    · subst hk
      have : ¬ k' = key := fun hc => h hc.symm
      simp [removeFirst, lookupD, this]
    · simp [removeFirst, lookupD, hk, ih]

/-! ### Dictionary lemmas -/

theorem nodupKeys_cons {α : Type} (k : String) (v : α)
    (rest : List (String × α)) :
    NodupKeys ((k, v) :: rest) ↔ k ∉ keysD rest ∧ NodupKeys rest := by
  simp [NodupKeys, keysD]

theorem keysD_cons {α : Type} (k : String) (v : α)
    (rest : List (String × α)) : keysD ((k, v) :: rest) = k :: keysD rest :=
  rfl

theorem mem_keysD_insertD {α : Type} (d : List (String × α)) (k x : String)
    (v : α) : x ∈ keysD (insertD d k v) ↔ x ∈ keysD d ∨ x = k := by
  induction d with
  | nil => simp [insertD, keysD]
  | cons p rest ih =>
    obtain ⟨k', v'⟩ := p
    by_cases h : k' = k
    · subst h
      rw [insertD, if_pos rfl, keysD_cons, keysD_cons]
      simp only [List.mem_cons]
      tauto
    · rw [insertD, if_neg h, keysD_cons, keysD_cons]
      simp only [List.mem_cons, ih]
      tauto

theorem mem_keysD_removeFirst {α : Type} (d : List (String × α))
    (k x : String) (h : x ∈ keysD (removeFirst d k)) : x ∈ keysD d := by
  induction d with
  | nil => simpa [removeFirst] using h
  | cons p rest ih =>
    obtain ⟨k', v'⟩ := p
    by_cases hk : k' = k
    · rw [removeFirst, if_pos hk] at h
      rw [keysD_cons]
      exact List.mem_cons_of_mem _ h
    · rw [removeFirst, if_neg hk, keysD_cons] at h
      rw [keysD_cons]
      rcases List.mem_cons.mp h with h | h
      · exact List.mem_cons.mpr (Or.inl h)
      · exact List.mem_cons.mpr (Or.inr (ih h))

theorem nodupKeys_insertD {α : Type} (d : List (String × α)) (k : String)
    (v : α) (h : NodupKeys d) : NodupKeys (insertD d k v) := by
  induction d with
  | nil => simp [insertD, NodupKeys, keysD]
  | cons p rest ih =>
    obtain ⟨k', v'⟩ := p
    rw [nodupKeys_cons] at h
    by_cases hk : k' = k
    · subst hk
      simp only [insertD, if_pos rfl]
      exact (nodupKeys_cons _ _ _).mpr h
    · simp only [insertD, if_neg hk]
      rw [nodupKeys_cons]
      refine ⟨?_, ih h.2⟩
      rw [mem_keysD_insertD]
      rintro (hc | hc)
      · exact h.1 hc
      · exact hk hc

theorem nodupKeys_removeFirst {α : Type} (d : List (String × α)) (k : String)
    (h : NodupKeys d) : NodupKeys (removeFirst d k) := by
  induction d with
  | nil => simpa [removeFirst] using h
  | cons p rest ih =>
    obtain ⟨k', v'⟩ := p
    rw [nodupKeys_cons] at h
    by_cases hk : k' = k
    · simpa [removeFirst, hk] using h.2
    · simp only [removeFirst, if_neg hk]
      rw [nodupKeys_cons]
      exact ⟨fun hc => h.1 (mem_keysD_removeFirst rest k k' hc), ih h.2⟩

theorem lookupD_removeFirst_self {α : Type} (d : List (String × α))
    (k : String) (h : NodupKeys d) : lookupD (removeFirst d k) k = none := by
  induction d with
  | nil => simp [removeFirst, lookupD]
  | cons p rest ih =>
    obtain ⟨k', v'⟩ := p
    rw [nodupKeys_cons] at h
    by_cases hk : k' = k
    · subst hk
      simp only [removeFirst, if_pos rfl]
      exact (lookupD_eq_none_iff rest k').mpr h.1
    · simp [removeFirst, lookupD, hk, ih h.2]

theorem mem_removeFirst {α : Type} (d : List (String × α)) (k : String)
    (p : String × α) (hnd : NodupKeys d) (h : p ∈ removeFirst d k) :
    p ∈ d ∧ p.1 ≠ k := by
  induction d with
  | nil => simp [removeFirst] at h
  | cons q rest ih =>
    obtain ⟨k', v'⟩ := q
    rw [nodupKeys_cons] at hnd
    by_cases hk : k' = k
    · subst hk
      simp only [removeFirst, if_pos rfl] at h
      refine ⟨List.mem_cons_of_mem _ h, fun hc => hnd.1 ?_⟩
      rw [← hc]
      exact List.mem_map_of_mem Prod.fst h
    · simp only [removeFirst, if_neg hk] at h
      rcases List.mem_cons.mp h with h | h
      · subst h
        exact ⟨List.mem_cons_self _ _, hk⟩
      · obtain ⟨h1, h2⟩ := ih hnd.2 h
        exact ⟨List.mem_cons_of_mem _ h1, h2⟩

/-! ### Characterizing the context diff and its application -/

theorem mem_keysD_filterMap {α β : Type} (l : List (String × α))
    (f : String × α → Option (String × β))
    (hf : ∀ p q, f p = some q → q.1 = p.1) (x : String)
    (h : x ∈ keysD (l.filterMap f)) : x ∈ keysD l := by
  induction l with
  | nil => simpa using h
  | cons p rest ih =>
    rw [List.filterMap_cons] at h
    rw [keysD_cons]
    cases hfp : f p with
    | none =>
      rw [hfp] at h
      exact List.mem_cons.mpr (Or.inr (ih h))
    | some q =>
      rw [hfp] at h
      rcases List.mem_cons.mp h with h | h
      · exact List.mem_cons.mpr (Or.inl (h.trans (hf p q hfp)))
      · exact List.mem_cons.mpr (Or.inr (ih h))

theorem lookupD_filterMap {α β : Type} (l : List (String × α))
    (f : String × α → Option (String × β))
    (hf : ∀ p q, f p = some q → q.1 = p.1) (hnd : NodupKeys l) (k : String) :
    lookupD (l.filterMap f) k =
      (lookupD l k).bind fun v => (f (k, v)).map Prod.snd := by
  induction l with
  | nil => simp [lookupD]
  | cons p rest ih =>
    obtain ⟨k', v'⟩ := p
    rw [nodupKeys_cons] at hnd
    rw [List.filterMap_cons]
    by_cases hk : k' = k
    · subst hk
      cases hfp : f (k', v') with
      | none =>
        have hrest : lookupD (rest.filterMap f) k' = none := by
          rw [lookupD_eq_none_iff]
          exact fun hc => hnd.1 (mem_keysD_filterMap rest f hf k' hc)
        simp [lookupD, hrest, hfp]
      | some q =>
        have hq : q.1 = k' := hf _ _ hfp
        obtain ⟨qk, qv⟩ := q
        subst hq
        simp [lookupD, hfp]
    · cases hfp : f (k', v') with
      | none => simp [lookupD, hk, ih hnd.2]
      | some q =>
        have hq : q.1 = k' := hf _ _ hfp
        obtain ⟨qk, qv⟩ := q
        subst hq
        simp only [lookupD, if_neg hk]
        exact ih hnd.2

theorem contextDiff_lookupD (o : Options) (hold : NodupKeys o.initial_context)
    (hnew : NodupKeys o.context) (k : String) :
    lookupD o.context_diff k =
      match lookupD o.initial_context k, lookupD o.context k with
      | some _, none => some JVal.null
      | none, some v => some v
      | some ov, some v => if ov = v then none else some v
      | none, none => none := by
  have h1 := lookupD_filterMap o.initial_context
    (fun p => if hasKeyD o.context p.1 then none else some (p.1, JVal.null))
    (by
      intro p q h
      obtain ⟨a, b⟩ := p
      dsimp only at h
      by_cases hx : hasKeyD o.context a = true
      · rw [if_pos hx] at h
        simp at h
      · rw [if_neg hx] at h
        injection h with h'
        rw [← h'])
    hold k
  have h2 := lookupD_filterMap o.context
    (fun p => if hasKeyD o.initial_context p.1 then none else some (p.1, p.2))
    (by
      intro p q h
      obtain ⟨a, b⟩ := p
      dsimp only at h
      by_cases hx : hasKeyD o.initial_context a = true
      · rw [if_pos hx] at h
        simp at h
      · rw [if_neg hx] at h
        injection h with h'
        rw [← h'])
    hnew k
  have h3 := lookupD_filterMap o.context
    (fun p =>
      match lookupD o.initial_context p.1 with
      | some ov => if ov ≠ p.2 then some (p.1, p.2) else none
      | none => none)
    (by
      intro p q h
      obtain ⟨a, b⟩ := p
      dsimp only at h
      cases hx : lookupD o.initial_context a with
      | none =>
        rw [hx] at h
        simp at h
      | some ov =>
        rw [hx] at h
        dsimp only at h
        by_cases hne : ov ≠ b
        · rw [if_pos hne] at h
          injection h with h'
          rw [← h']
        · rw [if_neg hne] at h
          simp at h)
    hnew k
  rw [Options.context_diff, lookupD_append, lookupD_append, h1, h2, h3]
  cases hO : lookupD o.initial_context k with
  | none =>
    cases hN : lookupD o.context k with
    | none => simp
    | some v => simp [hasKeyD, hO]
  | some ov =>
    cases hN : lookupD o.context k with
    | none => simp [hasKeyD, hN]
    | some v =>
      by_cases hv : ov = v
      · subst hv
        simp [hasKeyD, hO, hN]
      · simp [hasKeyD, hO, hN, hv]

theorem hasKeyD_insertD {α : Type} (d : List (String × α)) (k key : String)
    (v : α) :
    hasKeyD (insertD d k v) key = (k = key || hasKeyD d key) := by
  rw [hasKeyD, hasKeyD, lookupD_insertD]
  by_cases h : k = key <;> simp [h]

theorem applyContextDiff_lookupD (ctx diff : List (String × JVal))
    (hctx : NodupKeys ctx) (hdiff : NodupKeys diff) (k : String) :
    lookupD (applyContextDiff ctx diff) k =
      match lookupD diff k with
      | none => lookupD ctx k
      | some JVal.null => if hasKeyD ctx k then none else some JVal.null
      | some v => some v := by
  induction diff generalizing ctx with
  | nil => simp [applyContextDiff, lookupD]
  | cons p rest ih =>
    obtain ⟨dk, dv⟩ := p
    rw [nodupKeys_cons] at hdiff
    have hstep :
        applyContextDiff ctx ((dk, dv) :: rest) =
          applyContextDiff
            (if dv = JVal.null ∧ hasKeyD ctx dk then removeFirst ctx dk
             else insertD ctx dk dv) rest := by
      rw [applyContextDiff, applyContextDiff, List.foldl_cons]
    rw [hstep]
    by_cases hnull : dv = JVal.null ∧ hasKeyD ctx dk
    · rw [if_pos hnull]
      rw [ih (removeFirst ctx dk) (nodupKeys_removeFirst ctx dk hctx) hdiff.2]
      by_cases hk : dk = k
      · subst hk
        have hrest : lookupD rest dk = none :=
          (lookupD_eq_none_iff rest dk).mpr hdiff.1
        rw [hrest, lookupD_removeFirst_self ctx dk hctx]
        rw [lookupD, if_pos rfl, hnull.1, if_pos hnull.2]
      · rw [lookupD_removeFirst_ne ctx dk k (Ne.symm hk)]
        have hck : hasKeyD (removeFirst ctx dk) k = hasKeyD ctx k := by
          rw [hasKeyD, hasKeyD, lookupD_removeFirst_ne ctx dk k (Ne.symm hk)]
        rw [hck, lookupD, if_neg hk]
    · rw [if_neg hnull]
      rw [ih (insertD ctx dk dv) (nodupKeys_insertD ctx dk dv hctx) hdiff.2]
      by_cases hk : dk = k
      · subst hk
        have hrest : lookupD rest dk = none :=
          (lookupD_eq_none_iff rest dk).mpr hdiff.1
        rw [hrest, lookupD_insertD, if_pos rfl, lookupD, if_pos rfl]
        cases dv with
        | null =>
          have : ¬ hasKeyD ctx dk := fun hc => hnull ⟨rfl, hc⟩
          simp [this]
        | bool b => rfl
        | num n => rfl
        | str s => rfl
        | arr xs => rfl
        | obj kvs => rfl
      · rw [lookupD_insertD, if_neg hk]
        have hck : hasKeyD (insertD ctx dk dv) k = hasKeyD ctx k := by
          rw [hasKeyD_insertD]
          simp [hk]
        rw [hck, lookupD, if_neg hk]

theorem rawValueAt_cons (k0 key : String) (v0 : PVal)
    (rest : List (String × PVal)) :
    rawValueAt ((k0, v0) :: rest) key =
      if k0 = key then
        (match v0 with
         | .raw s => some s
         | .dec _ => none)
      else rawValueAt rest key := by
  by_cases h : k0 = key
  · cases v0 <;> simp [rawValueAt, lookupD, h]
  · simp [rawValueAt, lookupD, h]

theorem decValueAt_cons (k0 key : String) (v0 : PVal)
    (rest : List (String × PVal)) :
    decValueAt ((k0, v0) :: rest) key =
      if k0 = key then
        (match v0 with
         | .raw _ => none
         | .dec v => some v)
      else decValueAt rest key := by
  by_cases h : k0 = key
  · cases v0 <;> simp [decValueAt, lookupD, h]
  · simp [decValueAt, lookupD, h]

theorem acceptableEntry_raw_cases (k : String) (s : String)
    (hp : acceptableEntry (k, .raw s) = true) :
    k = "version" ∨ k = "target" ∨ k = "mode" ∨ k = "fail_target" ∨
      k = "fail_mode" ∨ k = "validate" ∨ k = "expire_cache" := by
  simpa [acceptableEntry, rawFieldNames] using hp

theorem acceptableEntry_dec_cases (k : String) (jv : JVal)
    (hp : acceptableEntry (k, .dec jv) = true) :
    ((k = "context" ∨ k = "fail_context") ∧ ∃ kvs, jv = JVal.obj kvs) ∨
      (k = "events" ∧ ∃ xs, jv = JVal.arr xs) ∨
      k = "title" ∨ k = "accept_layer" ∨ k = "dismiss_layer" := by
  cases jv <;> simp [acceptableEntry, anyDecFieldNames] at hp <;> tauto

theorem buildFrom_spec (l : List (String × PVal)) (hnd : NodupKeys l)
    (hacc : ∀ p ∈ l, acceptableEntry p = true) (o : Options) :
    buildFrom o l = .ok (buildSpecUpdate l o) := by
  induction l generalizing o with
  | nil =>
    simp [buildFrom, buildSpecUpdate, rawValueAt, decValueAt, objValueAt,
      arrValueAt, lookupD]
  | cons p rest ih =>
    obtain ⟨k, v⟩ := p
    rw [nodupKeys_cons] at hnd
    have hp := hacc (k, v) (List.mem_cons_self _ _)
    have hrest : ∀ q ∈ rest, acceptableEntry q = true :=
      fun q hq => hacc q (List.mem_cons_of_mem _ hq)
    have hnone : lookupD rest k = none := (lookupD_eq_none_iff rest k).mpr hnd.1
    have hdn : decValueAt rest k = none := by simp [decValueAt, hnone]
    have hrn : rawValueAt rest k = none := by simp [rawValueAt, hnone]
    cases v with
    | raw s =>
      rcases acceptableEntry_raw_cases k s hp with h | h | h | h | h | h | h
      · subst h
        rw [show buildFrom o (("version", PVal.raw s) :: rest) =
              buildFrom { o with version := s } rest from rfl,
          ih hnd.2 hrest]
        simp [buildSpecUpdate, rawValueAt_cons, decValueAt_cons, objValueAt,
          arrValueAt, hrn]
      · subst h
        rw [show buildFrom o (("target", PVal.raw s) :: rest) =
              buildFrom { o with target := s } rest from rfl,
          ih hnd.2 hrest]
        simp [buildSpecUpdate, rawValueAt_cons, decValueAt_cons, objValueAt,
          arrValueAt, hrn]
      · subst h
        rw [show buildFrom o (("mode", PVal.raw s) :: rest) =
              buildFrom { o with mode := s } rest from rfl,
          ih hnd.2 hrest]
        simp [buildSpecUpdate, rawValueAt_cons, decValueAt_cons, objValueAt,
          arrValueAt, hrn]
      · subst h
        rw [show buildFrom o (("fail_target", PVal.raw s) :: rest) =
              buildFrom { o with fail_target := s } rest from rfl,
          ih hnd.2 hrest]
        simp [buildSpecUpdate, rawValueAt_cons, decValueAt_cons, objValueAt,
          arrValueAt, hrn]
      · subst h
        rw [show buildFrom o (("fail_mode", PVal.raw s) :: rest) =
              buildFrom { o with fail_mode := s } rest from rfl,
          ih hnd.2 hrest]
        simp [buildSpecUpdate, rawValueAt_cons, decValueAt_cons, objValueAt,
          arrValueAt, hrn]
      · subst h
        rw [show buildFrom o (("validate", PVal.raw s) :: rest) =
              buildFrom { o with validate := s } rest from rfl,
          ih hnd.2 hrest]
        simp [buildSpecUpdate, rawValueAt_cons, decValueAt_cons, objValueAt,
          arrValueAt, hrn]
      · subst h
        rw [show buildFrom o (("expire_cache", PVal.raw s) :: rest) =
              buildFrom { o with expire_cache := s } rest from rfl,
          ih hnd.2 hrest]
        simp [buildSpecUpdate, rawValueAt_cons, decValueAt_cons, objValueAt,
          arrValueAt, hrn]
    | dec jv =>
      rcases acceptableEntry_dec_cases k jv hp with
        ⟨hk, kvs, hv⟩ | ⟨hk, xs, hv⟩ | h | h | h
      · rcases hk with hk | hk
        · subst hk
          subst hv
          rw [show buildFrom o (("context", PVal.dec (JVal.obj kvs)) :: rest) =
                buildFrom { o with context := kvs } rest from rfl,
            ih hnd.2 hrest]
          simp [buildSpecUpdate, rawValueAt_cons, decValueAt_cons, objValueAt,
            arrValueAt, hdn]
        · subst hk
          subst hv
          rw [show buildFrom o
                (("fail_context", PVal.dec (JVal.obj kvs)) :: rest) =
                buildFrom { o with fail_context := kvs } rest from rfl,
            ih hnd.2 hrest]
          simp [buildSpecUpdate, rawValueAt_cons, decValueAt_cons, objValueAt,
            arrValueAt, hdn]
      · subst hk
        subst hv
        rw [show buildFrom o (("events", PVal.dec (JVal.arr xs)) :: rest) =
              buildFrom { o with events := xs } rest from rfl,
          ih hnd.2 hrest]
        simp [buildSpecUpdate, rawValueAt_cons, decValueAt_cons, objValueAt,
          arrValueAt, hdn]
      · subst h
        rw [show buildFrom o (("title", PVal.dec jv) :: rest) =
              buildFrom { o with title := jv } rest from rfl,
          ih hnd.2 hrest]
        simp [buildSpecUpdate, rawValueAt_cons, decValueAt_cons, objValueAt,
          arrValueAt, hdn]
      · subst h
        rw [show buildFrom o (("accept_layer", PVal.dec jv) :: rest) =
              buildFrom { o with accept_layer := some jv } rest from rfl,
          ih hnd.2 hrest]
        simp [buildSpecUpdate, rawValueAt_cons, decValueAt_cons, objValueAt,
          arrValueAt, hdn]
      · subst h
        rw [show buildFrom o (("dismiss_layer", PVal.dec jv) :: rest) =
              buildFrom { o with dismiss_layer := some jv } rest from rfl,
          ih hnd.2 hrest]
        simp [buildSpecUpdate, rawValueAt_cons, decValueAt_cons, objValueAt,
          arrValueAt, hdn]

theorem setField_ok_acceptable (o : Options) (k : String) (v : PVal)
    (o' : Options) (h : Options.setField o k v = .ok o') :
    acceptableEntry (k, v) = true := by
  by_cases h1 : k = "version"
  · subst h1
    cases v with
    | raw s => first | rfl | simp [Options.setField] at h
    | dec jv => cases jv <;> first | rfl | simp [Options.setField] at h
  by_cases h2 : k = "target"
  · subst h2
    cases v with
    | raw s => first | rfl | simp [Options.setField] at h
    | dec jv => cases jv <;> first | rfl | simp [Options.setField] at h
  by_cases h3 : k = "mode"
  · subst h3
    cases v with
    | raw s => first | rfl | simp [Options.setField] at h
    | dec jv => cases jv <;> first | rfl | simp [Options.setField] at h
  by_cases h4 : k = "fail_target"
  · subst h4
    cases v with
    | raw s => first | rfl | simp [Options.setField] at h
    | dec jv => cases jv <;> first | rfl | simp [Options.setField] at h
  by_cases h5 : k = "fail_mode"
  · subst h5
    cases v with
    | raw s => first | rfl | simp [Options.setField] at h
    | dec jv => cases jv <;> first | rfl | simp [Options.setField] at h
  by_cases h6 : k = "validate"
  · subst h6
    cases v with
    | raw s => first | rfl | simp [Options.setField] at h
    | dec jv => cases jv <;> first | rfl | simp [Options.setField] at h
  by_cases h7 : k = "expire_cache"
  · subst h7
    cases v with
    | raw s => first | rfl | simp [Options.setField] at h
    | dec jv => cases jv <;> first | rfl | simp [Options.setField] at h
  by_cases h8 : k = "context"
  · subst h8
    cases v with
    | raw s => first | rfl | simp [Options.setField] at h
    | dec jv => cases jv <;> first | rfl | simp [Options.setField] at h
  by_cases h9 : k = "fail_context"
  · subst h9
    cases v with
    | raw s => first | rfl | simp [Options.setField] at h
    | dec jv => cases jv <;> first | rfl | simp [Options.setField] at h
  by_cases h10 : k = "events"
  · subst h10
    cases v with
    | raw s => first | rfl | simp [Options.setField] at h
    | dec jv => cases jv <;> first | rfl | simp [Options.setField] at h
  by_cases h11 : k = "title"
  · subst h11
    cases v with
    | raw s => first | rfl | simp [Options.setField] at h
    | dec jv => cases jv <;> first | rfl | simp [Options.setField] at h
  by_cases h12 : k = "accept_layer"
  · subst h12
    cases v with
    | raw s => first | rfl | simp [Options.setField] at h
    | dec jv => cases jv <;> first | rfl | simp [Options.setField] at h
  by_cases h13 : k = "dismiss_layer"
  · subst h13
    cases v with
    | raw s => first | rfl | simp [Options.setField] at h
    | dec jv => cases jv <;> first | rfl | simp [Options.setField] at h
  simp [Options.setField, h1, h2, h3, h4, h5, h6, h7, h8, h9, h10, h11, h12, h13] at h

theorem buildFrom_no_ok (l : List (String × PVal)) (p : String × PVal)
    (hp : p ∈ l) (hbad : acceptableEntry p = false) (o : Options) :
    ∃ e, buildFrom o l = .error e := by
  induction l generalizing o with
  | nil => simp at hp
  | cons q rest ih =>
    obtain ⟨qk, qv⟩ := q
    cases hsf : Options.setField o qk qv with
    | error e => exact ⟨e, by simp [buildFrom, hsf]⟩
    | ok o1 =>
      rcases List.mem_cons.mp hp with hpq | hpr
      · rw [hpq] at hbad
        rw [setField_ok_acceptable o qk qv o1 hsf] at hbad
        simp at hbad
      · obtain ⟨e, he⟩ := ih hpr o1
        exact ⟨e, by simp [buildFrom, hsf, he]⟩

theorem decodeOpt_unknown (deser : String → JVal) (k v : String)
    (hk : k ∉ initFieldNames) (hkd : k ≠ "context_diff") :
    decodeOpt deser k v = .raw v := by
  rw [decodeOpt, if_neg]
  intro hmem
  simp [decodedKeys] at hmem
  rcases hmem with h | h | h | h | h | h | h
  · exact hk (by rw [h]; decide)
  · exact hk (by rw [h]; decide)
  · exact hkd h
  · exact hk (by rw [h]; decide)
  · exact hk (by rw [h]; decide)
  · exact hk (by rw [h]; decide)
  · exact hk (by rw [h]; decide)

theorem acceptableEntry_raw_unknown (k s : String)
    (hk : k ∉ initFieldNames) : acceptableEntry (k, .raw s) = false := by
  rcases hcase : acceptableEntry (k, PVal.raw s) with _ | _
  · rfl
  · exfalso
    rcases acceptableEntry_raw_cases k s hcase with h | h | h | h | h | h | h <;>
      exact hk (by rw [h]; decide)

/-! ### The decode stage of `Options.parse` -/

theorem lookupD_decodeStage (deser : String → JVal)
    (opts : List (String × String)) (k : String) :
    lookupD (decodeStage deser opts) k =
      (lookupD opts k).map fun v => decodeOpt deser k v := by
  induction opts with
  | nil => simp [decodeStage, lookupD]
  | cons p rest ih =>
    obtain ⟨k', v'⟩ := p
    by_cases h : k' = k
    · subst h
      simp [decodeStage, lookupD]
    · simpa [decodeStage, lookupD, h] using ih

theorem keysD_decodeStage (deser : String → JVal)
    (opts : List (String × String)) :
    keysD (decodeStage deser opts) = keysD opts := by
  induction opts with
  | nil => rfl
  | cons p rest ih =>
    obtain ⟨k', v'⟩ := p
    simp only [decodeStage, List.map_cons] at ih ⊢
    rw [keysD_cons, keysD_cons, ih]

theorem nodupKeys_decodeStage (deser : String → JVal)
    (opts : List (String × String)) (h : NodupKeys opts) :
    NodupKeys (decodeStage deser opts) := by
  rw [NodupKeys, keysD_decodeStage]
  exact h

theorem mem_decodeStage (deser : String → JVal)
    (opts : List (String × String)) (q : String × PVal) :
    q ∈ decodeStage deser opts ↔
      ∃ p ∈ opts, q = (p.1, decodeOpt deser p.1 p.2) := by
  rw [decodeStage, List.mem_map]
  constructor
  · rintro ⟨p, hp, rfl⟩
    exact ⟨p, hp, rfl⟩
  · rintro ⟨p, hp, rfl⟩
    exact ⟨p, hp, rfl⟩

theorem applyContextDiff_nil (ctx : List (String × JVal)) :
    applyContextDiff ctx [] = ctx := rfl

theorem decValueAt_remaining (deser : String → JVal)
    (opts : List (String × String)) (K : String) (hKd : K ∈ decodedKeys)
    (hKne : K ≠ "context_diff") :
    decValueAt (removeFirst (decodeStage deser opts) "context_diff") K =
      (lookupD opts K).map fun s => substituteNull K (deser s) := by
  rw [decValueAt, lookupD_removeFirst_ne _ _ _ hKne, lookupD_decodeStage]
  cases lookupD opts K with
  | none => rfl
  | some s => simp [decodeOpt, hKd]

/-- C2: `Options.parse` replaces each of the seven listed keys that is present
with its deserialization; a null deserialization becomes an empty mapping for
`context`/`fail_context`/`context_diff`, an empty sequence for `events`, and
stays null for `dismiss_layer`/`accept_layer`/`title`; and the extracted
`context_diff` is applied onto the freshly parsed `context` by
`applyContextDiff` (a null diff value deletes the key if present, any other
diff value is stored under the key). -/
theorem c2_parse_decode_substitute_and_apply_diff
    (deser : String → JVal) (opts : List (String × String))
    (hnd : NodupKeys opts)
    (hacc : ∀ p ∈ opts,
      p.1 = "context_diff" ∨ acceptableEntry (p.1, decodeOpt deser p.1 p.2) = true)
    (hdiff : ∀ s, lookupD opts "context_diff" = some s →
      deser s = JVal.null ∨ ∃ kvs, deser s = JVal.obj kvs) :
    ∃ o : Options, Options.parse deser opts = .ok o ∧
      o.initial_context =
        (match lookupD opts "context" with
         | some s =>
           (match deser s with
            | JVal.obj kvs => kvs
            | _ => [])
         | none => []) ∧
      o.context =
        applyContextDiff
          (match lookupD opts "context" with
         | some s =>
           (match deser s with
            | JVal.obj kvs => kvs
            | _ => [])
         | none => [])
          (match lookupD opts "context_diff" with
         | some s =>
           (match deser s with
            | JVal.obj kvs => kvs
            | _ => [])
         | none => []) ∧
      o.fail_context =
        (match lookupD opts "fail_context" with
         | some s =>
           (match deser s with
            | JVal.obj kvs => kvs
            | _ => [])
         | none => []) ∧
      o.events =
        (match lookupD opts "events" with
         | some s =>
           (match deser s with
            | JVal.arr xs => xs
            | _ => [])
         | none => []) ∧
      o.title =
        (match lookupD opts "title" with
         | some s => deser s
         | none => JVal.str "") ∧
      o.accept_layer = (lookupD opts "accept_layer").map deser ∧
      o.dismiss_layer = (lookupD opts "dismiss_layer").map deser := by
  have hndp : NodupKeys (decodeStage deser opts) :=
    nodupKeys_decodeStage deser opts hnd
  have hndr : NodupKeys (removeFirst (decodeStage deser opts) "context_diff") :=
    nodupKeys_removeFirst _ _ hndp
  have hra : ∀ q ∈ removeFirst (decodeStage deser opts) "context_diff",
      acceptableEntry q = true := by
    intro q hq
    obtain ⟨hq1, hq2⟩ := mem_removeFirst _ _ q hndp hq
    obtain ⟨p, hp, rfl⟩ := (mem_decodeStage deser opts q).mp hq1
    rcases hacc p hp with h | h
    · exact absurd h hq2
    · exact h
  have hbuild := buildFrom_spec _ hndr hra {}
  have hctxF :
      (objValueAt (removeFirst (decodeStage deser opts) "context_diff") "context").getD [] =
      (match lookupD opts "context" with
         | some s =>
           (match deser s with
            | JVal.obj kvs => kvs
            | _ => [])
         | none => []) := by
    rw [objValueAt,
      decValueAt_remaining deser opts "context" (by decide) (by decide)]
    cases lookupD opts "context" with
    | none => rfl
    | some s =>
      cases hds : deser s <;>
        simp [substituteNull, contextLikeKeys, hds]
  have hfcF :
      (objValueAt (removeFirst (decodeStage deser opts) "context_diff") "fail_context").getD [] =
      (match lookupD opts "fail_context" with
         | some s =>
           (match deser s with
            | JVal.obj kvs => kvs
            | _ => [])
         | none => []) := by
    rw [objValueAt,
      decValueAt_remaining deser opts "fail_context" (by decide) (by decide)]
    cases lookupD opts "fail_context" with
    | none => rfl
    | some s =>
      cases hds : deser s <;>
        simp [substituteNull, contextLikeKeys, hds]
  have hevF :
      (arrValueAt (removeFirst (decodeStage deser opts) "context_diff") "events").getD [] =
      (match lookupD opts "events" with
         | some s =>
           (match deser s with
            | JVal.arr xs => xs
            | _ => [])
         | none => []) := by
    rw [arrValueAt,
      decValueAt_remaining deser opts "events" (by decide) (by decide)]
    cases lookupD opts "events" with
    | none => rfl
    | some s =>
      cases hds : deser s <;>
        simp [substituteNull, contextLikeKeys, hds]
  have htiF :
      (decValueAt (removeFirst (decodeStage deser opts) "context_diff") "title").getD (JVal.str "") =
      (match lookupD opts "title" with
         | some s => deser s
         | none => JVal.str "") := by
    rw [decValueAt_remaining deser opts "title" (by decide) (by decide)]
    cases lookupD opts "title" with
    | none => rfl
    | some s =>
      cases hds : deser s <;>
        simp [substituteNull, contextLikeKeys, hds]
  have haF :
      ((decValueAt (removeFirst (decodeStage deser opts) "context_diff") "accept_layer").map some).getD none =
      (lookupD opts "accept_layer").map deser := by
    rw [decValueAt_remaining deser opts "accept_layer" (by decide) (by decide)]
    cases lookupD opts "accept_layer" with
    | none => rfl
    | some s =>
      cases hds : deser s <;>
        simp [substituteNull, contextLikeKeys, hds]
  have hdF :
      ((decValueAt (removeFirst (decodeStage deser opts) "context_diff") "dismiss_layer").map some).getD none =
      (lookupD opts "dismiss_layer").map deser := by
    rw [decValueAt_remaining deser opts "dismiss_layer" (by decide) (by decide)]
    cases lookupD opts "dismiss_layer" with
    | none => rfl
    | some s =>
      cases hds : deser s <;>
        simp [substituteNull, contextLikeKeys, hds]
  rcases hcd : lookupD opts "context_diff" with _ | s
  · refine ⟨{ buildSpecUpdate (removeFirst (decodeStage deser opts) "context_diff") ({} : Options) with
        initial_context := (buildSpecUpdate (removeFirst (decodeStage deser opts) "context_diff") ({} : Options)).context },
      ?_, ?_, ?_, ?_, ?_, ?_, ?_, ?_⟩
    · simp only [Options.parse, lookupD_decodeStage, hcd, Option.map_none',
        hbuild, JVal.truthy]
      all_goals rfl
    · simp only [buildSpecUpdate]
      exact hctxF
    · simp only [buildSpecUpdate, hcd]
      rw [hctxF]
      all_goals rfl
    · simp only [buildSpecUpdate]
      exact hfcF
    · simp only [buildSpecUpdate]
      exact hevF
    · simp only [buildSpecUpdate]
      exact htiF
    · simp only [buildSpecUpdate]
      exact haF
    · simp only [buildSpecUpdate]
      exact hdF
  · have hdecd : decodeOpt deser "context_diff" s =
        .dec (substituteNull "context_diff" (deser s)) := by
      simp [decodeOpt, decodedKeys]
    rcases hdiff s hcd with hnull | ⟨kvs, hobj⟩
    · have hsub : substituteNull "context_diff" (deser s) = JVal.obj [] := by
        simp [substituteNull, hnull, contextLikeKeys]
      refine ⟨{ buildSpecUpdate (removeFirst (decodeStage deser opts) "context_diff") ({} : Options) with
          initial_context := (buildSpecUpdate (removeFirst (decodeStage deser opts) "context_diff") ({} : Options)).context },
        ?_, ?_, ?_, ?_, ?_, ?_, ?_, ?_⟩
      · simp only [Options.parse, lookupD_decodeStage, hcd, Option.map_some',
          hdecd, hsub,
          hbuild, JVal.truthy]
        all_goals rfl
      · simp only [buildSpecUpdate]
        exact hctxF
      · simp only [buildSpecUpdate, hcd, hnull]
        rw [hctxF]
        all_goals rfl
      · simp only [buildSpecUpdate]
        exact hfcF
      · simp only [buildSpecUpdate]
        exact hevF
      · simp only [buildSpecUpdate]
        exact htiF
      · simp only [buildSpecUpdate]
        exact haF
      · simp only [buildSpecUpdate]
        exact hdF
    · have hsub : substituteNull "context_diff" (deser s) = JVal.obj kvs := by
        simp [substituteNull, hobj]
      by_cases hkE : kvs = []
      · subst hkE
        refine ⟨{ buildSpecUpdate (removeFirst (decodeStage deser opts) "context_diff") ({} : Options) with
            initial_context := (buildSpecUpdate (removeFirst (decodeStage deser opts) "context_diff") ({} : Options)).context },
          ?_, ?_, ?_, ?_, ?_, ?_, ?_, ?_⟩
        · simp only [Options.parse, lookupD_decodeStage, hcd, Option.map_some',
            hdecd, hsub,
            hbuild, JVal.truthy]
          all_goals rfl
        · simp only [buildSpecUpdate]
          exact hctxF
        · simp only [buildSpecUpdate, hcd, hobj]
          rw [hctxF]
          all_goals rfl
        · simp only [buildSpecUpdate]
          exact hfcF
        · simp only [buildSpecUpdate]
          exact hevF
        · simp only [buildSpecUpdate]
          exact htiF
        · simp only [buildSpecUpdate]
          exact haF
        · simp only [buildSpecUpdate]
          exact hdF
      · refine ⟨{ buildSpecUpdate (removeFirst (decodeStage deser opts) "context_diff") ({} : Options) with
            initial_context := (buildSpecUpdate (removeFirst (decodeStage deser opts) "context_diff") ({} : Options)).context,
            context := applyContextDiff ((buildSpecUpdate (removeFirst (decodeStage deser opts) "context_diff") ({} : Options)).context) kvs },
          ?_, ?_, ?_, ?_, ?_, ?_, ?_, ?_⟩
        · simp only [Options.parse, lookupD_decodeStage, hcd, Option.map_some',
            hdecd, hsub,
            hbuild, JVal.truthy]
          simp [hkE]
        · simp only [buildSpecUpdate]
          exact hctxF
        · simp only [buildSpecUpdate, hcd, hobj]
          rw [hctxF]
          all_goals rfl
        · simp only [buildSpecUpdate]
          exact hfcF
        · simp only [buildSpecUpdate]
          exact hevF
        · simp only [buildSpecUpdate]
          exact htiF
        · simp only [buildSpecUpdate]
          exact haF
        · simp only [buildSpecUpdate]
          exact hdF

theorem mem_removeFirst_of_ne {α : Type} (d : List (String × α)) (k : String)
    (p : String × α) (hp : p ∈ d) (hne : p.1 ≠ k) : p ∈ removeFirst d k := by
  induction d with
  | nil => simp at hp
  | cons q rest ih =>
    obtain ⟨qk, qv⟩ := q
    by_cases hq : qk = k
    · rw [removeFirst, if_pos hq]
      rcases List.mem_cons.mp hp with h | h
      · exact absurd (by rw [h, hq]) hne
      · exact h
    · rw [removeFirst, if_neg hq]
      rcases List.mem_cons.mp hp with h | h
      · exact h ▸ List.mem_cons_self _ _
      · exact List.mem_cons_of_mem _ (ih h)

/-! ### Claims -/

/-- C1: for every Options record (with well-formed dict fields), the computed
`context_diff` contains exactly the keys on which `initial_context` and
`context` disagree: a key present only in `initial_context` maps to null, a
key present only in `context` maps to the current value, a key present in
both with structurally unequal values maps to the current value, and a key
with equal values is absent. -/
theorem c1_context_diff_exact (o : Options)
    (hold : NodupKeys o.initial_context) (hnew : NodupKeys o.context)
    (k : String) :
    lookupD o.context_diff k =
      match lookupD o.initial_context k, lookupD o.context k with
      | some _, none => some JVal.null
      | none, some v => some v
      | some ov, some v => if ov = v then none else some v
      | none, none => none :=
  contextDiff_lookupD o hold hnew k

theorem c1_witness :
    NodupKeys ([("a", JVal.str "y"), ("c", JVal.null)]) ∧
    NodupKeys ([("a", JVal.str "x"), ("b", JVal.num 1)]) ∧
    lookupD
      ({ context := [("a", JVal.str "x"), ("b", JVal.num 1)],
         initial_context := [("a", JVal.str "y"), ("c", JVal.null)] } :
        Options).context_diff "a" = some (JVal.str "x") :=
  ⟨by decide, by decide, by
    have h := c1_context_diff_exact
      { context := [("a", JVal.str "x"), ("b", JVal.num 1)],
        initial_context := [("a", JVal.str "y"), ("c", JVal.null)] }
      (by decide) (by decide) "a"
    rw [h]
    decide⟩

/-- C3 counterexample: a raw option map derived from the unrecognized request
header `X-Up-Foo` makes `Options.parse` raise `TypeError` (the attrs
initializer rejects the unknown keyword argument), contradicting the claim
that parsing succeeds with unknown keys ignored. -/
theorem c3_counterexample :
    Options.parse defaultCodec.deserialize_data
      (Unpoly.buildRawOptions [("X-Up-Foo", "x")] []) =
      .error "TypeError: unexpected keyword argument foo" := by
  rfl

/-- C3 amended: for every raw option map containing a key outside the
record's declared init field set (and other than `context_diff`, which parse
pops), `Options.parse` raises `TypeError`: unknown keys are not ignored. -/
theorem c3_amended_unknown_key_raises (deser : String → JVal)
    (opts : List (String × String)) (k v : String)
    (hk : k ∉ initFieldNames) (hkd : k ≠ "context_diff")
    (hmem : (k, v) ∈ opts) :
    ∃ e, Options.parse deser opts = .error e := by
  have hent : (k, decodeOpt deser k v) ∈ decodeStage deser opts :=
    (mem_decodeStage deser opts _).mpr ⟨(k, v), hmem, rfl⟩
  rw [decodeOpt_unknown deser k v hk hkd] at hent
  have hrem : (k, PVal.raw v) ∈
      removeFirst (decodeStage deser opts) "context_diff" :=
    mem_removeFirst_of_ne _ _ _ hent hkd
  obtain ⟨e, he⟩ := buildFrom_no_ok _ _ hrem
    (acceptableEntry_raw_unknown k v hk) {}
  exact ⟨e, by simp only [Options.parse, he]⟩

theorem c3_witness :
    ("foo" ∉ initFieldNames ∧ "foo" ≠ "context_diff" ∧
      ("foo", "x") ∈ [("foo", "x")]) ∧
    ∃ e, Options.parse defaultCodec.deserialize_data [("foo", "x")] =
      .error e :=
  ⟨⟨by decide, by decide, by decide⟩,
    c3_amended_unknown_key_raises defaultCodec.deserialize_data
      [("foo", "x")] "foo" "x" (by decide) (by decide) (by decide)⟩

/-! ### Lookup structure of the serialized option map -/

theorem serialize_lookup_accept (o : Options) (ser : JVal → String) :
    lookupD (o.serialize ser) "accept_layer" = o.accept_layer.map ser := by
  cases hA : o.accept_layer <;> cases hD : o.dismiss_layer <;>
    (simp only [Options.serialize, hA, hD]
     split_ifs <;> simp [lookupD_append, lookupD])

theorem serialize_lookup_dismiss (o : Options) (ser : JVal → String) :
    lookupD (o.serialize ser) "dismiss_layer" = o.dismiss_layer.map ser := by
  cases hA : o.accept_layer <;> cases hD : o.dismiss_layer <;>
    (simp only [Options.serialize, hA, hD]
     split_ifs <;> simp [lookupD_append, lookupD])

theorem serialize_lookup_context (o : Options) (ser : JVal → String) :
    lookupD (o.serialize ser) "context" =
      if o.context_diff.isEmpty then none
      else some (ser (JVal.obj o.context_diff)) := by
  cases hA : o.accept_layer <;> cases hD : o.dismiss_layer <;>
    (simp only [Options.serialize, hA, hD]
     split_ifs <;> simp_all [lookupD_append, lookupD])

theorem serialize_no_context_diff (o : Options) (ser : JVal → String) :
    lookupD (o.serialize ser) "context_diff" = none := by
  cases hA : o.accept_layer <;> cases hD : o.dismiss_layer <;>
    (simp only [Options.serialize, hA, hD]
     split_ifs <;> simp [lookupD_append, lookupD])

theorem serialize_nodupKeys (o : Options) (ser : JVal → String) :
    NodupKeys (o.serialize ser) := by
  cases hA : o.accept_layer <;> cases hD : o.dismiss_layer <;>
    (simp only [Options.serialize, hA, hD]
     split_ifs <;> simp [NodupKeys, keysD])

/-- C4: `accept_layer` and `dismiss_layer` are tri-state.  `Options.serialize`
includes each of them iff it was ever explicitly set (`Layer.accept` and
`Layer.dismiss` mark the field set, with a default payload of null), and an
explicitly set null payload serializes as the literal JSON `null` under the
default codec, so never-set, set-to-null and set-to-a-value are all
distinguishable in the serialized output. -/
theorem c4_accept_dismiss_tristate (o : Options) (v : JVal) :
    (lookupD (o.serialize defaultCodec.serialize_data) "accept_layer" =
      o.accept_layer.map defaultCodec.serialize_data) ∧
    (lookupD (o.serialize defaultCodec.serialize_data) "dismiss_layer" =
      o.dismiss_layer.map defaultCodec.serialize_data) ∧
    (lookupD (o.serialize defaultCodec.serialize_data) "accept_layer" = none ↔
      o.accept_layer = none) ∧
    (lookupD (o.serialize defaultCodec.serialize_data) "dismiss_layer" = none ↔
      o.dismiss_layer = none) ∧
    ((Layer.accept o v).accept_layer = some v) ∧
    ((Layer.accept o).accept_layer = some JVal.null) ∧
    ((Layer.dismiss o v).dismiss_layer = some v) ∧
    ((Layer.dismiss o).dismiss_layer = some JVal.null) ∧
    defaultCodec.serialize_data JVal.null = "null" := by
  refine ⟨serialize_lookup_accept o _, serialize_lookup_dismiss o _,
    ?_, ?_, rfl, rfl, rfl, rfl, rfl⟩
  · rw [serialize_lookup_accept]
    cases o.accept_layer <;> simp
  · rw [serialize_lookup_dismiss]
    cases o.dismiss_layer <;> simp

/-! ### Renaming context to context_diff on redirects -/

theorem renameContextKey_lookup_context (s : List (String × String))
    (hnd : NodupKeys s) :
    lookupD (renameContextKey s) "context" = none := by
  cases hc : lookupD s "context" with
  | none => simp [renameContextKey, hc]
  | some v =>
    simp only [renameContextKey, hc, lookupD_insertD]
    rw [if_neg (by decide)]
    exact lookupD_removeFirst_self s "context" hnd

theorem renameContextKey_lookup_diff (s : List (String × String))
    (hcd : lookupD s "context_diff" = none) :
    lookupD (renameContextKey s) "context_diff" = lookupD s "context" := by
  cases hc : lookupD s "context" with
  | none => simp [renameContextKey, hc, hcd]
  | some v => simp [renameContextKey, hc, lookupD_insertD]

/-- C5: for a protocol-aware request whose response has a redirect target,
`finalize_response` renames the serialized `context` entry to `context_diff`,
converts every serialized key to its `_up_`-prefixed query-parameter form,
appends the encoded parameters to the redirect URI with `&` if the URI
already contains `?` and `?` otherwise, and writes the augmented URI back
through the adapter; headers are not written. -/
theorem c5_finalize_redirect (c : Codec) (a : SimpleAdapter) (o : Options)
    (uri : String) (hup : Unpoly.isUp o = true)
    (hred : a.redirect_uri = some uri) :
    Unpoly.finalize_response c a o =
      { cookie := Unpoly.needs_cookie a o,
        response_redirect_uri := some
          (if ((renameContextKey (o.serialize c.serialize_data)).map
                fun p => (opt_to_param p.1, p.2)).isEmpty then uri
           else
             uri ++ (if pyContainsChar uri '?' then "&" else "?") ++
               urlencode ((renameContextKey (o.serialize c.serialize_data)).map
                 fun p => (opt_to_param p.1, p.2))),
        response_headers := none } ∧
    lookupD (renameContextKey (o.serialize c.serialize_data)) "context" =
      none ∧
    lookupD (renameContextKey (o.serialize c.serialize_data)) "context_diff" =
      lookupD (o.serialize c.serialize_data) "context" := by
  refine ⟨?_, renameContextKey_lookup_context _ (serialize_nodupKeys o _),
    renameContextKey_lookup_diff _ (serialize_no_context_diff o _)⟩
  simp only [Unpoly.finalize_response, hup, hred, Bool.not_true, Bool.false_eq_true,
    if_false]

theorem c5_witness :
    Unpoly.isUp { version := "1.0", context := [("k", JVal.str "v")] } =
      true ∧
    (Unpoly.finalize_response defaultCodec
      { headers := [("X-Up-Version", "1.0")], redirect_uri := some "/next" }
      { version := "1.0", context := [("k", JVal.str "v")] }).response_redirect_uri =
      some "/next?_up_context_diff=%7B%22k%22%3A%22v%22%7D" ∧
    (Unpoly.finalize_response defaultCodec
      { headers := [("X-Up-Version", "1.0")], redirect_uri := some "/next" }
      { version := "1.0", context := [("k", JVal.str "v")] }).response_headers =
      none := by
  obtain ⟨h1, h2, h3⟩ := c5_finalize_redirect defaultCodec
    { headers := [("X-Up-Version", "1.0")], redirect_uri := some "/next" }
    { version := "1.0", context := [("k", JVal.str "v")] }
    "/next" rfl rfl
  refine ⟨rfl, ?_, ?_⟩
  · rw [h1]
    rfl
  · rw [h1]

/-- C7: for a request that is not protocol-aware (empty version field),
`finalize_response` only reports the cookie decision through
`adapter.set_cookie` and stops: no response headers are written and the
redirect target is not modified; for a GET request the cookie decision is
`false`. -/
theorem c7_finalize_non_protocol (c : Codec) (a : SimpleAdapter) (o : Options)
    (h : Unpoly.isUp o = false) :
    Unpoly.finalize_response c a o =
      { cookie := Unpoly.needs_cookie a o, response_redirect_uri := none,
        response_headers := none } ∧
    (a.method = "GET" → Unpoly.needs_cookie a o = false) := by
  constructor
  · simp [Unpoly.finalize_response, h]
  · intro hg
    simp [Unpoly.needs_cookie, hg]

theorem c7_witness :
    Unpoly.isUp ({} : Options) = false ∧
    (Unpoly.finalize_response defaultCodec {} {} =
      { cookie := Unpoly.needs_cookie {} {}, response_redirect_uri := none,
        response_headers := none } ∧
    (SimpleAdapter.method {} = "GET" → Unpoly.needs_cookie {} {} = false)) :=
  ⟨rfl, c7_finalize_non_protocol defaultCodec {} {} rfl⟩

/-- C8: `needs_cookie` is true iff the request method differs from GET and
the request is not protocol-aware; for a non-protocol-aware POST request the
flag passed through `finalize_response` is true and the Django adapter's
`set_cookie` then sets the `_up_method` cookie to `"POST"`. -/
theorem c8_needs_cookie_iff (c : Codec) (a : SimpleAdapter) (o : Options)
    (hasC : Bool) :
    (Unpoly.needs_cookie a o = true ↔
      (a.method ≠ "GET" ∧ Unpoly.isUp o = false)) ∧
    (a.method = "POST" → Unpoly.isUp o = false →
      Unpoly.needs_cookie a o = true ∧
      (Unpoly.finalize_response c a o).cookie = true ∧
      djangoSetCookie a.method hasC
        ((Unpoly.finalize_response c a o).cookie) =
        CookieEffect.setTo "POST") := by
  constructor
  · simp [Unpoly.needs_cookie]
  · intro hp hup
    have hn : Unpoly.needs_cookie a o = true := by
      simp [Unpoly.needs_cookie, hp, hup]
    have hc : (Unpoly.finalize_response c a o).cookie = true := by
      simp [Unpoly.finalize_response, hup, hn]
    refine ⟨hn, hc, ?_⟩
    rw [hc, hp]
    rfl

theorem c8_witness :
    Unpoly.needs_cookie { method := "POST" } {} = true ∧
    djangoSetCookie "POST" false true = CookieEffect.setTo "POST" := by
  obtain ⟨-, h2⟩ :=
    c8_needs_cookie_iff defaultCodec { method := "POST" } {} false
  obtain ⟨hn, hc, hd⟩ := h2 rfl rfl
  rw [hc] at hd
  exact ⟨hn, hd⟩

/-- C9 counterexample: a caller-supplied `layer` key makes `Layer.emit` raise
`TypeError` (the keyword argument `layer` would be given twice in
`dict(layer="current", **options)`), so the claimed last-write-wins override
does not happen. -/
theorem c9_counterexample :
    Layer.emit {} "user:created" (some [("layer", JVal.str "root")]) =
      .error "TypeError: multiple values for keyword argument layer" := rfl

/-- C9 amended: for every event type and every option mapping containing
neither a `layer` nor a `type` key, `Layer.emit` delegates to the
coordinator's emit and appends an event carrying `layer = "current"`; a
mapping that does contain a `layer` key instead makes the call fail with
`TypeError` (no override occurs). -/
theorem c9_amended_emit_injects_current (o : Options) (ty : String)
    (opts : List (String × JVal))
    (hl : hasKeyD opts "layer" = false) (ht : hasKeyD opts "type" = false) :
    Layer.emit o ty (some opts) =
      .ok { o with events := o.events ++
        [JVal.obj (("type", JVal.str ty) ::
          ("layer", JVal.str "current") :: opts)] } ∧
    lookupD (("type", JVal.str ty) :: ("layer", JVal.str "current") :: opts)
      "layer" = some (JVal.str "current") ∧
    (∀ w, Layer.emit o ty (some (("layer", w) :: opts)) =
      .error "TypeError: multiple values for keyword argument layer") := by
  refine ⟨?_, ?_, ?_⟩
  · have ht' : hasKeyD (("layer", JVal.str "current") :: opts) "type" =
        false := by
      simpa [hasKeyD, lookupD] using ht
    simp [Layer.emit, Unpoly.emit, hl, ht']
  · simp [lookupD]
  · intro w
    simp [Layer.emit, hasKeyD, lookupD]

theorem c9_witness :
    (hasKeyD ([("id", JVal.num 5)]) "layer" = false ∧
      hasKeyD ([("id", JVal.num 5)]) "type" = false) ∧
    Layer.emit {} "user:created" (some [("id", JVal.num 5)]) =
      .ok { ({} : Options) with events :=
        ([] : List JVal) ++
          [JVal.obj [("type", JVal.str "user:created"),
            ("layer", JVal.str "current"), ("id", JVal.num 5)]] } :=
  ⟨⟨by decide, by decide⟩,
    (c9_amended_emit_injects_current {} "user:created" [("id", JVal.num 5)]
      (by decide) (by decide)).1⟩

/-- C10: a raw option value that is the string `"null"` — a well-formed JSON
encoding of null — deserializes to null under the default codec exactly like
malformed input does, and `Options.parse` treats the two identically for the
context-like keys (substituting an empty mapping), so a well-formed null
payload and a malformed payload are indistinguishable in the parsed record. -/
theorem c10_null_matches_malformed (k bad : String)
    (rest : List (String × String)) (hk : k ∈ contextLikeKeys)
    (hbad : pyJsonLoads bad = none) :
    BaseAdapter.deserialize_data "null" = JVal.null ∧
    BaseAdapter.deserialize_data bad = JVal.null ∧
    Options.parse BaseAdapter.deserialize_data ((k, "null") :: rest) =
      Options.parse BaseAdapter.deserialize_data ((k, bad) :: rest) := by
  have hd1 : BaseAdapter.deserialize_data "null" = JVal.null := rfl
  have hd2 : BaseAdapter.deserialize_data bad = JVal.null := by
    simp [BaseAdapter.deserialize_data, hbad]
  refine ⟨hd1, hd2, ?_⟩
  have hkd : k ∈ decodedKeys := by
    have hk' : k = "context" ∨ k = "fail_context" ∨ k = "context_diff" := by
      simpa [contextLikeKeys] using hk
    rcases hk' with h | h | h <;> (subst h; decide)
  have hopt : decodeOpt BaseAdapter.deserialize_data k "null" =
      decodeOpt BaseAdapter.deserialize_data k bad := by
    simp [decodeOpt, hd1, hd2, hkd]
  have hds : decodeStage BaseAdapter.deserialize_data ((k, "null") :: rest) =
      decodeStage BaseAdapter.deserialize_data ((k, bad) :: rest) := by
    simp [decodeStage, hopt]
  simp only [Options.parse, hds]

theorem c10_witness :
    ("context" ∈ contextLikeKeys ∧ pyJsonLoads "[oops" = none) ∧
    (BaseAdapter.deserialize_data "null" = JVal.null ∧
      BaseAdapter.deserialize_data "[oops" = JVal.null ∧
      Options.parse BaseAdapter.deserialize_data
        [("context", "null"), ("version", "1.0")] =
        Options.parse BaseAdapter.deserialize_data
          [("context", "[oops"), ("version", "1.0")]) :=
  ⟨⟨by decide, by decide⟩,
    c10_null_matches_malformed "context" "[oops" [("version", "1.0")]
      (by decide) (by decide)⟩

theorem c2_witness :
    (NodupKeys [("version", "1.0"), ("context", "\x7b\"a\":1\x7d"),
      ("context_diff", "\x7b\"a\":null,\"b\":2\x7d"), ("events", "null"),
      ("title", "bad[")]) ∧
    ∃ o : Options,
      Options.parse BaseAdapter.deserialize_data
        [("version", "1.0"), ("context", "\x7b\"a\":1\x7d"),
          ("context_diff", "\x7b\"a\":null,\"b\":2\x7d"), ("events", "null"),
          ("title", "bad[")] = .ok o ∧
      o.initial_context = [("a", JVal.num 1)] ∧
      o.context = [("b", JVal.num 2)] ∧
      o.events = [] ∧
      o.title = JVal.null := by
  refine ⟨by decide, ?_⟩
  obtain ⟨o, h1, h2, h3, h4, h5, h6, h7, h8⟩ :=
    c2_parse_decode_substitute_and_apply_diff BaseAdapter.deserialize_data
      [("version", "1.0"), ("context", "\x7b\"a\":1\x7d"),
        ("context_diff", "\x7b\"a\":null,\"b\":2\x7d"), ("events", "null"),
        ("title", "bad[")]
      (by decide) (by decide)
      (by
        intro s hs
        have h0 : lookupD
            [("version", "1.0"), ("context", "\x7b\"a\":1\x7d"),
              ("context_diff", "\x7b\"a\":null,\"b\":2\x7d"),
              ("events", "null"), ("title", "bad[")] "context_diff" =
            some "\x7b\"a\":null,\"b\":2\x7d" := rfl
        rw [h0] at hs
        injection hs with hs
        subst hs
        exact Or.inr ⟨[("a", JVal.null), ("b", JVal.num 2)], rfl⟩)
  refine ⟨o, h1, ?_, ?_, ?_, ?_⟩
  · rw [h2]
    decide
  · rw [h3]
    decide
  · rw [h5]
    decide
  · rw [h6]
    decide

/-! ### The context diff is a well-formed dict -/

theorem nodupKeys_filterMap {α β : Type} (l : List (String × α))
    (f : String × α → Option (String × β))
    (hf : ∀ p q, f p = some q → q.1 = p.1) (h : NodupKeys l) :
    NodupKeys (l.filterMap f) := by
  induction l with
  | nil => simpa using h
  | cons p rest ih =>
    obtain ⟨k, v⟩ := p
    rw [nodupKeys_cons] at h
    rw [List.filterMap_cons]
    cases hfp : f (k, v) with
    | none => exact ih h.2
    | some q =>
      have hq : q.1 = k := hf _ _ hfp
      obtain ⟨qk, qv⟩ := q
      subst hq
      rw [nodupKeys_cons]
      exact ⟨fun hc => h.1 (mem_keysD_filterMap rest f hf qk hc), ih h.2⟩

theorem nodupKeys_append {α : Type} (a b : List (String × α))
    (ha : NodupKeys a) (hb : NodupKeys b)
    (hd : ∀ x, x ∈ keysD a → x ∉ keysD b) : NodupKeys (a ++ b) := by
  rw [NodupKeys, keysD, List.map_append, List.nodup_append]
  exact ⟨ha, hb, hd⟩

theorem mem_keysD_filterMap_if {α β : Type} (l : List (String × α))
    (c : String → Bool) (g : String → α → β) (x : String)
    (h : x ∈ keysD (l.filterMap fun p =>
      if c p.1 then none else some (p.1, g p.1 p.2))) : c x = false := by
  induction l with
  | nil => simp [keysD] at h
  | cons p rest ih =>
    obtain ⟨k, v⟩ := p
    rw [List.filterMap_cons] at h
    by_cases hc : c k
    · rw [if_pos (by simpa using hc)] at h
      exact ih h
    · rw [if_neg (by simpa using hc)] at h
      rcases List.mem_cons.mp h with h | h
      · rw [h]
        simpa using hc
      · exact ih h

theorem mem_keysD_diff_changed
    (l old : List (String × JVal)) (x : String)
    (h : x ∈ keysD (l.filterMap fun p =>
      match lookupD old p.1 with
      | some ov => if ov ≠ p.2 then some (p.1, p.2) else none
      | none => none)) : hasKeyD old x = true := by
  induction l with
  | nil => simp [keysD] at h
  | cons p rest ih =>
    obtain ⟨k, v⟩ := p
    rw [List.filterMap_cons] at h
    cases hov : lookupD old k with
    | none =>
      rw [show (match lookupD old (k, v).1 with
          | some ov => if ov ≠ (k, v).2 then some ((k, v).1, (k, v).2) else none
          | none => none) = none by rw [hov]] at h
      exact ih h
    | some ov =>
      by_cases hne : ov ≠ v
      · rw [show (match lookupD old (k, v).1 with
            | some ov => if ov ≠ (k, v).2 then some ((k, v).1, (k, v).2)
              else none
            | none => none) = some (k, v) by rw [hov]; simp [hne]] at h
        rcases List.mem_cons.mp h with h | h
        · rw [h, hasKeyD, hov]
          rfl
        · exact ih h
      · rw [show (match lookupD old (k, v).1 with
            | some ov => if ov ≠ (k, v).2 then some ((k, v).1, (k, v).2)
              else none
            | none => none) = none by rw [hov]; simp [hne]] at h
        exact ih h

theorem nodupKeys_contextDiff (o : Options)
    (hold : NodupKeys o.initial_context) (hnew : NodupKeys o.context) :
    NodupKeys o.context_diff := by
  rw [Options.context_diff]
  have hf1 : ∀ (p q : String × JVal),
      (if hasKeyD o.context p.1 then none else some (p.1, JVal.null)) =
        some q → q.1 = p.1 := by
    intro p q h
    by_cases hx : hasKeyD o.context p.1 = true
    · rw [if_pos hx] at h
      simp at h
    · rw [if_neg hx] at h
      injection h with h'
      rw [← h']
  have hf2 : ∀ (p q : String × JVal),
      (if hasKeyD o.initial_context p.1 then none else some (p.1, p.2)) =
        some q → q.1 = p.1 := by
    intro p q h
    by_cases hx : hasKeyD o.initial_context p.1 = true
    · rw [if_pos hx] at h
      simp at h
    · rw [if_neg hx] at h
      injection h with h'
      rw [← h']
  have hf3 : ∀ (p q : String × JVal),
      (match lookupD o.initial_context p.1 with
       | some ov => if ov ≠ p.2 then some (p.1, p.2) else none
       | none => none) = some q → q.1 = p.1 := by
    intro p q h
    obtain ⟨a, b⟩ := p
    dsimp only at h
    cases hx : lookupD o.initial_context a with
    | none =>
      rw [hx] at h
      simp at h
    | some ov =>
      rw [hx] at h
      dsimp only at h
      by_cases hne : ov ≠ b
      · rw [if_pos hne] at h
        injection h with h'
        rw [← h']
      · rw [if_neg hne] at h
        simp at h
  have hn1 := nodupKeys_filterMap o.initial_context _ hf1 hold
  have hn2 := nodupKeys_filterMap o.context _ hf2 hnew
  have hn3 := nodupKeys_filterMap o.context _ hf3 hnew
  refine nodupKeys_append _ _ (nodupKeys_append _ _ hn1 hn2 ?d12) hn3 ?d123
  case d12 =>
    intro x hx1 hx2
    have h1 := mem_keysD_filterMap_if o.initial_context (hasKeyD o.context)
      (fun _ _ => JVal.null) x hx1
    have h2mem : x ∈ keysD o.context :=
      mem_keysD_filterMap o.context _ hf2 x hx2
    rw [hasKeyD] at h1
    cases hl : lookupD o.context x with
    | none =>
      rw [lookupD_eq_none_iff] at hl
      exact hl h2mem
    | some v =>
      rw [hl] at h1
      simp at h1
  case d123 =>
    intro x hx12 hx3
    have h3 := mem_keysD_diff_changed o.context o.initial_context x hx3
    rw [keysD, List.map_append] at hx12
    rcases List.mem_append.mp hx12 with hx | hx
    · have h1 := mem_keysD_filterMap_if o.initial_context (hasKeyD o.context)
        (fun _ _ => JVal.null) x hx
      have h3mem : x ∈ keysD o.context :=
        mem_keysD_filterMap o.context _ hf3 x hx3
      rw [hasKeyD] at h1
      cases hl : lookupD o.context x with
      | none =>
        rw [lookupD_eq_none_iff] at hl
        exact hl h3mem
      | some v =>
        rw [hl] at h1
        simp at h1
    · have h2 := mem_keysD_filterMap_if o.context (hasKeyD o.initial_context)
        (fun _ v => v) x hx
      rw [h2] at h3
      exact absurd h3 (by simp)

/-- C6 counterexample: serializing a record whose context did not change
(here both `initial_context` and `context` are `\x7b"a": "x"\x7d`) produces an
empty diff, so re-parsing the serialized map — with the context entry
presented under `context_diff` as `finalize_response` does on redirects —
yields an empty context: the unchanged key `"a"` is lost, so the re-parsed
context is not equivalent to the original. -/
theorem c6_counterexample :
    Options.parse BaseAdapter.deserialize_data
      (renameContextKey
        (Options.serialize
          { context := [("a", JVal.str "x")],
            initial_context := [("a", JVal.str "x")] }
          BaseAdapter.serialize_data)) = .ok ({} : Options) ∧
    lookupD (({} : Options)).context "a" = none ∧
    lookupD
      ({ context := [("a", JVal.str "x")],
         initial_context := [("a", JVal.str "x")] } : Options).context "a" =
      some (JVal.str "x") :=
  ⟨rfl, rfl, rfl⟩

/-- C6 amended: serializing an Options record and re-parsing a raw map that
carries the original `initial_context` under the `context` key (as the
client's request header would) together with the serialized context entry,
if any, under the `context_diff` key (as `finalize_response` presents it on
redirects) yields a record whose context mapping is lookup-equivalent to the
original record's context, provided the codec round-trips the two values and
the mutated context stores no null values (null on the wire signals
deletion). -/
theorem c6_amended_roundtrip (ser : JVal → String) (deser : String → JVal)
    (o : Options)
    (hI : NodupKeys o.initial_context) (hC : NodupKeys o.context)
    (hCnn : ∀ k v, lookupD o.context k = some v → v ≠ JVal.null)
    (hrtI : deser (ser (JVal.obj o.initial_context)) =
      JVal.obj o.initial_context)
    (hrtD : deser (ser (JVal.obj o.context_diff)) = JVal.obj o.context_diff) :
    ∃ o' : Options,
      Options.parse deser
        (("context", ser (JVal.obj o.initial_context)) ::
          (if o.context_diff.isEmpty then []
           else [("context_diff", ser (JVal.obj o.context_diff))])) =
        .ok o' ∧
      ∀ k, lookupD o'.context k = lookupD o.context k := by
  have hsub1 : substituteNull "context"
      (deser (ser (JVal.obj o.initial_context))) =
      JVal.obj o.initial_context := by
    rw [hrtI]
    simp [substituteNull]
  by_cases hd : o.context_diff = []
  · refine ⟨{ ({} : Options) with
        context := o.initial_context,
        initial_context := o.initial_context }, ?_, ?_⟩
    · rw [hd]
      simp only [List.isEmpty_nil, if_true]
      simp only [Options.parse, decodeStage, List.map_cons, List.map_nil,
        decodeOpt]
      rw [if_pos (by decide : ("context" : String) ∈ decodedKeys), hsub1]
      simp [lookupD, removeFirst, buildFrom, Options.setField, JVal.truthy]
    · intro k
      have hdl := contextDiff_lookupD o hI hC k
      rw [hd] at hdl
      show lookupD o.initial_context k = lookupD o.context k
      rcases Option.eq_none_or_eq_some (lookupD o.initial_context k) with
        hO | ⟨ov, hO⟩ <;>
        rcases Option.eq_none_or_eq_some (lookupD o.context k) with
          hN | ⟨v, hN⟩
      · rw [hO, hN]
      · rw [hO, hN] at hdl
        simp [lookupD] at hdl
      · rw [hO, hN] at hdl
        simp [lookupD] at hdl
      · rw [hO, hN] at hdl
        by_cases he : ov = v
        · rw [hO, hN, he]
        · simp [lookupD, he] at hdl
  · refine ⟨{ ({} : Options) with
        context := applyContextDiff o.initial_context o.context_diff,
        initial_context := o.initial_context }, ?_, ?_⟩
    · have hsub2 : substituteNull "context_diff"
          (deser (ser (JVal.obj o.context_diff))) =
          JVal.obj o.context_diff := by
        rw [hrtD]
        simp [substituteNull]
      rw [if_neg (by simpa using hd)]
      simp only [Options.parse, decodeStage, List.map_cons, List.map_nil,
        decodeOpt]
      rw [if_pos (by decide : ("context" : String) ∈ decodedKeys),
        if_pos (by decide : ("context_diff" : String) ∈ decodedKeys),
        hsub1, hsub2]
      simp [lookupD, removeFirst, buildFrom, Options.setField, JVal.truthy, hd]
    · intro k
      show lookupD (applyContextDiff o.initial_context o.context_diff) k =
        lookupD o.context k
      rw [applyContextDiff_lookupD o.initial_context o.context_diff hI
        (nodupKeys_contextDiff o hI hC) k]
      have hdl := contextDiff_lookupD o hI hC k
      rcases Option.eq_none_or_eq_some (lookupD o.initial_context k) with
        hO | ⟨ov, hO⟩ <;>
        rcases Option.eq_none_or_eq_some (lookupD o.context k) with
          hN | ⟨v, hN⟩
      · rw [hO, hN] at hdl
        dsimp only at hdl
        rw [hdl]
        dsimp only
        rw [hO, hN]
      · rw [hO, hN] at hdl
        dsimp only at hdl
        rw [hdl]
        cases v with
        | null => exact absurd rfl (hCnn k JVal.null hN)
        | bool b => rw [hN]
        | num n => rw [hN]
        | str s => rw [hN]
        | arr xs => rw [hN]
        | obj kvs => rw [hN]
      · rw [hO, hN] at hdl
        dsimp only at hdl
        rw [hdl, hN]
        simp [hasKeyD, hO]
      · rw [hO, hN] at hdl
        dsimp only at hdl
        by_cases he : ov = v
        · rw [if_pos he] at hdl
          rw [hdl]
          dsimp only
          rw [hO, hN, he]
        · rw [if_neg he] at hdl
          rw [hdl]
          cases v with
          | null => exact absurd rfl (hCnn k JVal.null hN)
          | bool b => rw [hN]
          | num n => rw [hN]
          | str s => rw [hN]
          | arr xs => rw [hN]
          | obj kvs => rw [hN]

theorem c6_witness :
    (∀ k v,
      lookupD [("a", JVal.str "y"), ("b", JVal.str "z")] k = some v →
        v ≠ JVal.null) ∧
    ∃ o' : Options,
      Options.parse BaseAdapter.deserialize_data
        [("context", "\x7b\"a\":\"x\"\x7d"),
         ("context_diff", "\x7b\"b\":\"z\",\"a\":\"y\"\x7d")] = .ok o' ∧
      ∀ k, lookupD o'.context k =
        lookupD [("a", JVal.str "y"), ("b", JVal.str "z")] k := by
  have hcnn : ∀ k v,
      lookupD [("a", JVal.str "y"), ("b", JVal.str "z")] k = some v →
        v ≠ JVal.null := by
    intro k v h
    simp only [lookupD] at h
    split at h
    · injection h with h2
      rw [← h2]
      decide
    · split at h
      · injection h with h2
        rw [← h2]
        decide
      · exact absurd h (by simp)
  exact ⟨hcnn,
    c6_amended_roundtrip BaseAdapter.serialize_data
      BaseAdapter.deserialize_data
      { context := [("a", JVal.str "y"), ("b", JVal.str "z")],
        initial_context := [("a", JVal.str "x")] }
      (by decide) (by decide) hcnn (by decide) (by decide)⟩

theorem c4_witness :
    lookupD ((Layer.accept {}).serialize defaultCodec.serialize_data)
      "accept_layer" = some "null" ∧
    lookupD (({} : Options).serialize defaultCodec.serialize_data)
      "accept_layer" = none := by
  obtain ⟨h1, -, -, -, -, -, -, -, -⟩ :=
    c4_accept_dismiss_tristate (Layer.accept {}) JVal.null
  obtain ⟨h2, -, -, -, -, -, -, -, -⟩ :=
    c4_accept_dismiss_tristate ({} : Options) JVal.null
  constructor
  · rw [h1]
    rfl
  · rw [h2]
    rfl
